import Mathlib

/-!
Shallow embedding of the `sparse_qubo` library core
(`src/sparse_qubo/core/{node,switch,constraint,network,base_network}.py` and
`src/sparse_qubo/networks/*.py`) together with proofs about the embedded
definitions.

Python `frozenset[str]` is modelled as `Finset String`; Python `dict` maps
with a `defaultdict(0)` accumulation discipline are modelled as total
functions updated pointwise; Python exceptions are modelled with
`Except PyErr`.
-/

namespace SparseQubo

/-- Python exceptions raised by the library, by kind and message. -/
inductive PyErr where
  | valueError (msg : String)
  | typeError (msg : String)
  | runtimeError (msg : String)
  | notImplementedError
  | indexError
  | fuelExhausted
  deriving DecidableEq, Repr

/-- `NodeAttribute` from `core/node.py`. -/
inductive NodeAttribute where
  | ZERO_OR_ONE
  | ALWAYS_ZERO
  | ALWAYS_ONE
  | NOT_CARE
  deriving DecidableEq, Repr

/-- `VariableNode` from `core/node.py`: a named binary variable with an
attribute (field `attribute` in the source; `attribute` is a Lean keyword,
so the field is called `attr` here). -/
structure VariableNode where
  name : String
  attr : NodeAttribute := NodeAttribute.ZERO_OR_ONE
  deriving DecidableEq, Repr

/-- `Switch` from `core/switch.py` (structurally identical to
`PermutationChannel` from `core/permutation_channel.py`): left/right variable
name sets and integer constants.  The pydantic constructor performs no
validation at runtime (`__post_init__` is not a pydantic `BaseModel` hook),
so the record itself carries no disjointness invariant. -/
structure Switch where
  left_nodes : Finset String := ∅
  right_nodes : Finset String := ∅
  left_constant : Int := 0
  right_constant : Int := 0
  deriving DecidableEq

/-- The duplicate-variable check written in `Switch.__post_init__`
(`core/switch.py` lines 39-42): it raises iff the left and right node sets
intersect.  Under pydantic `BaseModel` this hook is never invoked, so the
check is dead code; we embed it separately so that theorems can speak about
the check the source intends to run. -/
def switchPostInitCheck (s : Switch) : Except PyErr Unit :=
  if (s.left_nodes ∪ s.right_nodes).card ≠ s.left_nodes.card + s.right_nodes.card then
    .error (.valueError "Duplicate variables found between left_nodes and right_nodes")
  else
    .ok ()

/-- Constructing a `Switch` as the running code does: pydantic `BaseModel`
does not call `__post_init__`, so construction always succeeds with the given
field values. -/
def mkSwitch (l r : Finset String) (cl cr : Int) : Except PyErr Switch :=
  .ok { left_nodes := l, right_nodes := r, left_constant := cl, right_constant := cr }

/-- The single switch of example (E4): `L = {L0}`, `R = {R0}`, `cL = 1`,
`cR = 2`. -/
def e4Switch : Switch :=
  { left_nodes := {"L0"}, right_nodes := {"R0"}, left_constant := 1, right_constant := 2 }

/-- QUBO record from `core/switch.py` (`class QUBO`).  `quadratic` models the
`dict[frozenset[str], float]`: the value of `quadratic x y` is the
coefficient stored under the key `frozenset((x, y))` (so it is symmetric in
its two arguments, and `quadratic v v` is the value under the singleton key
`frozenset((v,))`); `linear` models `dict[str, float]`.  Both dicts are
`defaultdict(0)`, hence total functions. -/
structure Qubo where
  vars : Finset String
  quadratic : String → String → Int
  linear : String → Int
  constant : Int

/-- Net contribution of one switch to the quadratic dict key `{u, v}` in
`Switch.to_qubo`: `+2` for each unordered pair drawn from `left_nodes`
(`combinations(switch.left_nodes, 2)`), `+2` for each unordered pair drawn
from `right_nodes`, and `-2` for every ordered pair in
`product(switch.left_nodes, switch.right_nodes)` whose frozenset is `{u, v}`. -/
def switchQuadDelta (s : Switch) (u v : String) : Int :=
  (if u ∈ s.left_nodes ∧ v ∈ s.left_nodes ∧ u ≠ v then 2 else 0)
    + (if u ∈ s.right_nodes ∧ v ∈ s.right_nodes ∧ u ≠ v then 2 else 0)
    + (if u ∈ s.left_nodes ∧ v ∈ s.right_nodes then -2 else 0)
    + (if u ≠ v ∧ v ∈ s.left_nodes ∧ u ∈ s.right_nodes then -2 else 0)

/-- Net contribution of one switch to `linear[v]`: `2*c + 1` when
`v ∈ left_nodes` and `-2*c + 1` when `v ∈ right_nodes`, where
`c = left_constant - right_constant` (`switch_constant` in the source). -/
def switchLinearDelta (s : Switch) (v : String) : Int :=
  (if v ∈ s.left_nodes then 2 * (s.left_constant - s.right_constant) + 1 else 0)
    + (if v ∈ s.right_nodes then -2 * (s.left_constant - s.right_constant) + 1 else 0)

/-- One iteration of the `for switch in switches` loop of `Switch.to_qubo`:
update `variables` (field `vars` here: `variables` is a Lean keyword), `quadratic`, `linear` and `constant` by the switch's
contributions. -/
def quboStep (q : Qubo) (s : Switch) : Qubo where
  vars := q.vars ∪ s.left_nodes ∪ s.right_nodes
  quadratic := fun u v => q.quadratic u v + switchQuadDelta s u v
  linear := fun v => q.linear v + switchLinearDelta s v
  constant := q.constant + (s.left_constant - s.right_constant) ^ 2

/-- `Switch.to_qubo` from `core/switch.py`: fold the per-switch accumulation
over the list, starting from empty maps. -/
def toQubo (switches : List Switch) : Qubo :=
  switches.foldl quboStep
    { vars := ∅, quadratic := fun _ _ => 0, linear := fun _ => 0, constant := 0 }

/-- The unordered variable pairs of a QUBO: ordered representatives `(u, v)`
with `u < v` drawn from `variables`. -/
def quboPairs (V : Finset String) : Finset (String × String) :=
  (V ×ˢ V).filter (fun p => p.1 < p.2)

/-- Objective value of a QUBO at an assignment `x`:
`constant + Σ linear[v]·x v + Σ_{u<v} quadratic[{u,v}]·x u·x v`, plus the
terms of the degenerate singleton keys `{v}` (which encode `v·v`); the
singleton terms are all zero when every switch has disjoint sides. -/
def quboEval (q : Qubo) (x : String → Int) : Int :=
  q.constant
    + ∑ v ∈ q.vars, q.linear v * x v
    + ∑ p ∈ quboPairs q.vars, q.quadratic p.1 p.2 * x p.1 * x p.2
    + ∑ v ∈ q.vars, q.quadratic v v * x v * x v

/-- The local constraint encoded by one switch:
`sum(left_nodes) + left_constant = sum(right_nodes) + right_constant`. -/
def switchSat (s : Switch) (x : String → Int) : Prop :=
  (∑ v ∈ s.left_nodes, x v) + s.left_constant
    = (∑ v ∈ s.right_nodes, x v) + s.right_constant

instance (s : Switch) (x : String → Int) : Decidable (switchSat s x) := by
  unfold switchSat; infer_instance

/-- The squared-penalty value of a single switch at `x`. -/
def switchPenalty (s : Switch) (x : String → Int) : Int :=
  ((∑ v ∈ s.left_nodes, x v) + s.left_constant
    - (∑ v ∈ s.right_nodes, x v) - s.right_constant) ^ 2

/-- An assignment that is 0/1 on a set of variables. -/
def zeroOneOn (V : Finset String) (x : String → Int) : Prop :=
  ∀ v ∈ V, x v = 0 ∨ x v = 1

/-- The switch with the same variable on both sides used to probe the
(unenforced) disjointness invariant. -/
def dupSwitch : Switch := { left_nodes := {"a"}, right_nodes := {"a"} }

/-- `ConstraintType` from `core/constraint.py`. -/
inductive ConstraintType where
  | ONE_HOT
  | EQUAL_TO
  | LESS_EQUAL
  | GREATER_EQUAL
  | CLAMP
  deriving DecidableEq, Repr

/-- Python `int.bit_length`: number of bits needed to represent `n`. -/
def bitLength (n : Nat) : Nat :=
  if n = 0 then 0 else Nat.log2 n + 1

/-- `target_size` in `get_initial_nodes`: the original size, or
`1 << (original_size - 1).bit_length()` when `exponentiation` is on and the
size is positive. -/
def targetSizeOf (originalSize : Nat) (expo : Bool) : Nat :=
  if expo ∧ 0 < originalSize then 2 ^ bitLength (originalSize - 1) else originalSize

/-- `pad_len = target_size - original_size` in `get_initial_nodes`. -/
def padLenOf (originalSize : Nat) (expo : Bool) : Nat :=
  targetSizeOf originalSize expo - originalSize

/-- `get_original_right_attr` from `core/constraint.py` (the inner function of
`get_initial_nodes`), including its parameter validation; arithmetic is over
`Int` as in Python.  The `case _` branch raising `NotImplementedError` is
unreachable for the closed enumeration. -/
def getOriginalRightAttr (ct : ConstraintType) (originalSize : Nat)
    (c1 c2 : Option Int) (i : Nat) : Except PyErr NodeAttribute :=
  match ct with
  | .ONE_HOT =>
      .ok (if (i : Int) < (originalSize : Int) - 1 then .ALWAYS_ZERO else .ALWAYS_ONE)
  | .EQUAL_TO =>
      match c1 with
      | none => .error (.valueError s!"c1 must be between 0 and {originalSize}")
      | some k =>
          if 0 ≤ k ∧ k ≤ (originalSize : Int) then
            .ok (if (i : Int) < (originalSize : Int) - k then .ALWAYS_ZERO else .ALWAYS_ONE)
          else
            .error (.valueError s!"c1 must be between 0 and {originalSize}")
  | .LESS_EQUAL =>
      match c1 with
      | none => .error (.valueError s!"c1 must be between 0 and {originalSize}")
      | some k =>
          if 0 < k ∧ k ≤ (originalSize : Int) then
            .ok (if (i : Int) < (originalSize : Int) - k then .ALWAYS_ZERO else .NOT_CARE)
          else
            .error (.valueError s!"c1 must be between 0 and {originalSize}")
  | .GREATER_EQUAL =>
      match c1 with
      | none => .error (.valueError s!"c1 must be between 0 and {originalSize}")
      | some k =>
          if 0 ≤ k ∧ k < (originalSize : Int) then
            .ok (if (i : Int) < (originalSize : Int) - k then .NOT_CARE else .ALWAYS_ONE)
          else
            .error (.valueError s!"c1 must be between 0 and {originalSize}")
  | .CLAMP =>
      match c1, c2 with
      | some k1, some k2 =>
          if 0 ≤ k1 ∧ k1 ≤ k2 ∧ k2 ≤ (originalSize : Int) then
            .ok (if (i : Int) < (originalSize : Int) - k2 then .ALWAYS_ZERO
              else if (i : Int) < (originalSize : Int) - k1 then .NOT_CARE
              else .ALWAYS_ONE)
          else
            .error (.valueError
              s!"c1 and c2 must be valid range (0 <= c1 <= c2 <= {originalSize})")
      | _, _ =>
          .error (.valueError
            s!"c1 and c2 must be valid range (0 <= c1 <= c2 <= {originalSize})")

/-- `get_initial_nodes` from `core/constraint.py`: build the padded left and
right boundary `VariableNode` lists for a constraint (`vs` is the `variables`
argument; `variables` is a Lean keyword). -/
def getInitialNodes (vs : List String) (ct : ConstraintType)
    (c1 c2 : Option Int) (expo : Bool) :
    Except PyErr (List VariableNode × List VariableNode) := do
  let originalSize := vs.length
  let targetSize := targetSizeOf originalSize expo
  let padLen := targetSize - originalSize
  let originalRightAttrs ←
    (List.range originalSize).mapM (getOriginalRightAttr ct originalSize c1 c2)
  let rightAttrs := List.replicate padLen NodeAttribute.ALWAYS_ZERO ++ originalRightAttrs
  let leftNodes :=
    ((List.range padLen).map (fun i => VariableNode.mk s!"L{i}" NodeAttribute.ALWAYS_ZERO))
      ++ vs.map (fun v => VariableNode.mk v NodeAttribute.ZERO_OR_ONE)
  let rightNodes := rightAttrs.enum.map (fun p => VariableNode.mk s!"R{p.1}" p.2)
  return (leftNodes, rightNodes)

/-- The right-boundary attribute pattern as stated by the specification's
table, with `N = original_size`, indexed by `i ∈ [0, N)`; written from the
spec's words for comparison with the code's `get_original_right_attr`. -/
def specRightAttr (ct : ConstraintType) (N : Nat) (c1 c2 : Option Int)
    (i : Nat) : NodeAttribute :=
  match ct with
  | .ONE_HOT =>
      if (i : Int) < (N : Int) - 1 then .ALWAYS_ZERO else .ALWAYS_ONE
  | .EQUAL_TO =>
      if (i : Int) < (N : Int) - c1.getD 0 then .ALWAYS_ZERO else .ALWAYS_ONE
  | .LESS_EQUAL =>
      if (i : Int) < (N : Int) - c1.getD 0 then .ALWAYS_ZERO else .NOT_CARE
  | .GREATER_EQUAL =>
      if (i : Int) < (N : Int) - c1.getD 0 then .NOT_CARE else .ALWAYS_ONE
  | .CLAMP =>
      if (i : Int) < (N : Int) - c2.getD 0 then .ALWAYS_ZERO
      else if (i : Int) < (N : Int) - c1.getD 0 then .NOT_CARE
      else .ALWAYS_ONE

/-- The parameter ranges accepted by `get_initial_nodes`: `ONE_HOT` needs no
parameter, `EQUAL_TO` requires `0 ≤ c1 ≤ N`, `LESS_EQUAL` requires
`0 < c1 ≤ N`, `GREATER_EQUAL` requires `0 ≤ c1 < N`, `CLAMP` requires
`0 ≤ c1 ≤ c2 ≤ N`. -/
def paramsValid (ct : ConstraintType) (N : Nat) (c1 c2 : Option Int) : Bool :=
  match ct with
  | .ONE_HOT => true
  | .EQUAL_TO =>
      match c1 with
      | some k => decide (0 ≤ k ∧ k ≤ (N : Int))
      | none => false
  | .LESS_EQUAL =>
      match c1 with
      | some k => decide (0 < k ∧ k ≤ (N : Int))
      | none => false
  | .GREATER_EQUAL =>
      match c1 with
      | some k => decide (0 ≤ k ∧ k < (N : Int))
      | none => false
  | .CLAMP =>
      match c1, c2 with
      | some k1, some k2 => decide (0 ≤ k1 ∧ k1 ≤ k2 ∧ k2 ≤ (N : Int))
      | _, _ => false

deriving instance DecidableEq for Except

/-! ### The simplification pass (`ISwitchingNetwork.generate_network`,
`core/network.py` and `core/base_network.py`) -/

/-- `right_sum_min` for one switch: the number of its right nodes currently
marked `ALWAYS_ONE`, plus `right_constant - left_constant`. -/
def rightSumMin (attrMap : String → NodeAttribute) (s : Switch) : Int :=
  ((s.right_nodes.filter (fun v => attrMap v = NodeAttribute.ALWAYS_ONE)).card : Int)
    + s.right_constant - s.left_constant

/-- `right_sum_max` for one switch: the number of its right nodes not marked
`ALWAYS_ZERO`, plus `right_constant - left_constant`. -/
def rightSumMax (attrMap : String → NodeAttribute) (s : Switch) : Int :=
  ((s.right_nodes.filter (fun v => attrMap v ≠ NodeAttribute.ALWAYS_ZERO)).card : Int)
    + s.right_constant - s.left_constant

/-- Set the attribute of every name in `ns` to `a`
(the `for node in switch.left_nodes: name_to_attribute[node] = ...` loops). -/
def updAttr (attrMap : String → NodeAttribute) (ns : Finset String)
    (a : NodeAttribute) : String → NodeAttribute :=
  fun v => if v ∈ ns then a else attrMap v

/-- Lexicographic comparison of character lists, written by structural
recursion so that it reduces on concrete strings. -/
def charListLe : List Char → List Char → Bool
  | [], _ => true
  | _ :: _, [] => false
  | a :: as, b :: bs =>
      if a < b then true
      else if b < a then false
      else charListLe as bs

theorem charListLe_trans : ∀ x y z : List Char,
    charListLe x y = true → charListLe y z = true → charListLe x z = true
  | [], _, _, _, _ => rfl
  | _ :: _, [], _, h1, _ => by simp [charListLe] at h1
  | _ :: _, _ :: _, [], _, h2 => by simp [charListLe] at h2
  | a :: as, b :: bs, c :: cs, h1, h2 => by
      simp only [charListLe] at h1 h2 ⊢
      rcases lt_trichotomy a b with hab | hab | hab
      · rcases lt_trichotomy b c with hbc | hbc | hbc
        · rw [if_pos (lt_trans hab hbc)]
        · subst hbc
          rw [if_pos hab]
        · rw [if_neg (lt_asymm hbc), if_pos hbc] at h2
          cases h2
      · subst hab
        simp only [lt_self_iff_false, if_false] at h1
        rcases lt_trichotomy a c with hac | hac | hac
        · rw [if_pos hac]
        · subst hac
          simp only [lt_self_iff_false, if_false] at h2 ⊢
          exact charListLe_trans as bs cs h1 h2
        · rw [if_neg (lt_asymm hac), if_pos hac] at h2
          cases h2
      · rw [if_neg (lt_asymm hab), if_pos hab] at h1
        cases h1

theorem charListLe_total : ∀ x y : List Char,
    charListLe x y = true ∨ charListLe y x = true
  | [], _ => Or.inl rfl
  | _ :: _, [] => Or.inr rfl
  | a :: as, b :: bs => by
      simp only [charListLe]
      rcases lt_trichotomy a b with h | h | h
      · refine Or.inl ?_
        rw [if_pos h]
      · subst h
        simp only [lt_self_iff_false, if_false]
        exact charListLe_total as bs
      · refine Or.inr ?_
        rw [if_pos h]

theorem charListLe_antisymm : ∀ x y : List Char,
    charListLe x y = true → charListLe y x = true → x = y
  | [], [], _, _ => rfl
  | [], _ :: _, _, h2 => by simp [charListLe] at h2
  | _ :: _, [], h1, _ => by simp [charListLe] at h1
  | a :: as, b :: bs, h1, h2 => by
      simp only [charListLe] at h1 h2
      rcases lt_trichotomy a b with h | h | h
      · rw [if_neg (lt_asymm h), if_pos h] at h2
        cases h2
      · subst h
        simp only [lt_self_iff_false, if_false] at h1 h2
        rw [charListLe_antisymm as bs h1 h2]
      · rw [if_neg (lt_asymm h), if_pos h] at h1
        cases h1

/-- A total order on strings by character-list comparison (the built-in
`String` order is not kernel-reducible; this one is, and only the totality of
the order matters for fixing a set-iteration order). -/
def strLe (a b : String) : Prop :=
  charListLe a.data b.data = true

instance : DecidableRel strLe :=
  fun a b => inferInstanceAs (Decidable (charListLe a.data b.data = true))

instance : IsTotal String strLe :=
  ⟨fun a b => charListLe_total a.data b.data⟩

instance : IsTrans String strLe :=
  ⟨fun a b c => charListLe_trans a.data b.data c.data⟩

instance : IsAntisymm String strLe :=
  ⟨fun a b h1 h2 => by
    obtain ⟨da⟩ := a
    obtain ⟨db⟩ := b
    exact congrArg String.mk (charListLe_antisymm da db h1 h2)⟩

/-- Insertion sort lifted to multisets of strings (permutation-invariant, and
structurally recursive so that concrete instances reduce). -/
def multisetInsertionSort (m : Multiset String) : List String :=
  Quot.liftOn m (fun l => List.insertionSort strLe l)
    (fun l1 l2 p =>
      List.eq_of_perm_of_sorted
        ((List.perm_insertionSort _ l1).trans
          (p.trans (List.perm_insertionSort _ l2).symm))
        (List.sorted_insertionSort _ l1) (List.sorted_insertionSort _ l2))

/-- Iteration over a `frozenset` in a fixed (ascending) order; Python's set
iteration order is arbitrary, and nothing downstream depends on it beyond
the induced order of the emitted degenerate switches. -/
def sortedNodes (ns : Finset String) : List String :=
  multisetInsertionSort ns.val

lemma sortedNodes_empty : sortedNodes ∅ = [] := rfl

lemma sortedNodes_length (ns : Finset String) :
    (sortedNodes ns).length = ns.card := by
  obtain ⟨m, hnd⟩ := ns
  refine Quotient.inductionOn m (fun l => ?_) hnd
  intro hnd
  simpa [sortedNodes, multisetInsertionSort] using
    (List.perm_insertionSort strLe l).length_eq

/-- One iteration of the `for switch in network[::-1]` loop of
`generate_network`: validate scheduling, update the live frontier and the
attribute map, and return the switches appended to `result_network` by this
iteration. -/
def simplifyStep (attrMap : String → NodeAttribute) (current : Finset String)
    (s : Switch) :
    Except PyErr ((String → NodeAttribute) × Finset String × List Switch) :=
  if ¬ s.right_nodes ⊆ current then
    .error (.valueError "Invalid network: right nodes are not a subset of current nodes")
  else
    let current1 := current \ s.right_nodes
    if ¬ Disjoint s.left_nodes current1 then
      .error (.valueError "Invalid network: left nodes are not disjoint with current nodes")
    else
      let current2 := current1 ∪ s.left_nodes
      let numLeft : Int := s.left_nodes.card
      let mn := rightSumMin attrMap s
      let mx := rightSumMax attrMap s
      if ¬ (mx ≥ 0 ∧ mn ≤ numLeft) then
        .error (.valueError "Invalid network: right_sum bounds are not achievable")
      else if mn = numLeft then
        .ok (updAttr attrMap s.left_nodes .ALWAYS_ONE, current2,
          (sortedNodes s.left_nodes).map (fun v => Switch.mk {v} ∅ 0 1))
      else if mx = 0 then
        .ok (updAttr attrMap s.left_nodes .ALWAYS_ZERO, current2,
          (sortedNodes s.left_nodes).map (fun v => Switch.mk {v} ∅ 0 0))
      else if (∀ v ∈ s.right_nodes, attrMap v = NodeAttribute.NOT_CARE)
          ∧ mn ≤ 0 ∧ mx ≥ numLeft then
        .ok (updAttr attrMap s.left_nodes .NOT_CARE, current2, [])
      else
        let attrMap1 := updAttr attrMap s.left_nodes .ZERO_OR_ONE
        .ok (attrMap1, current2,
          [Switch.mk s.left_nodes
            (s.right_nodes.filter (fun v =>
              attrMap1 v ≠ NodeAttribute.ALWAYS_ONE
                ∧ attrMap1 v ≠ NodeAttribute.ALWAYS_ZERO))
            s.left_constant
            (s.right_constant
              + ((s.right_nodes.filter
                  (fun v => attrMap1 v = NodeAttribute.ALWAYS_ONE)).card : Int))])

/-- The loop of `generate_network` over the (already reversed) raw switch
list, threading the frontier and attribute state and concatenating the
emitted switches in processing order. -/
def simplifyGo (attrMap : String → NodeAttribute) (current : Finset String) :
    List Switch → Except PyErr (List Switch)
  | [] => .ok []
  | s :: rest => do
      let (attrMap1, current1, em) ← simplifyStep attrMap current s
      let out ← simplifyGo attrMap1 current1 rest
      return em ++ out

/-- `name_to_attribute` initialised from the right boundary nodes (a Python
dict built by comprehension; later entries win).  The default value for
names never inserted is immaterial: the pass only looks up names in
`current_nodes`. -/
def initAttrMap (rightNodes : List VariableNode) : String → NodeAttribute :=
  rightNodes.foldl (fun f node => Function.update f node.name node.attr)
    (fun _ => NodeAttribute.ZERO_OR_ONE)

/-- The simplification pass of `ISwitchingNetwork.generate_network` applied
to a raw switch list: walk the list in reverse input order, then return the
accumulated output reversed when `reverse` is set and as-is otherwise. -/
def simplifyNetwork (raw : List Switch) (rightNodes : List VariableNode)
    (reverse : Bool) : Except PyErr (List Switch) :=
  (simplifyGo (initAttrMap rightNodes)
      (rightNodes.map VariableNode.name).toFinset raw.reverse).map
    (fun out => if reverse then out.reverse else out)

/-! ### The bubble-sort network constructor
(`networks/bubble_sort_network.py`) -/

/-- Length of the intermediate-node chain for wire `i`:
`(N - 1 - i) * 2 if i > 0 else N - 2`. -/
def bubbleChainLen (N i : Nat) : Nat :=
  if 0 < i then (N - 1 - i) * 2 else N - 2

/-- `all_nodes[i]` of the bubble-sort constructor: the left name, the
intermediate names `{left}_{j}_{right}`, then the right name.  Out-of-range
list indexing (never exercised) yields `""`. -/
def bubbleChain (ln rn : List String) (N i : Nat) : List String :=
  let lname := ln.getD i ""
  let rname := rn.getD i ""
  [lname]
    ++ (List.range (bubbleChainLen N i)).map (fun j => s!"{lname}_{j}_{rname}")
    ++ [rname]

/-- The `(i, j)` iterations of the double loop
`for i in list(range(1, N)) + list(range(1, N - 1))[::-1]:
for j in range(0, i, 2)`. -/
def bubblePairs (N : Nat) : List (Nat × Nat) :=
  ((List.range' 1 (N - 1)) ++ (List.range' 1 (N - 2)).reverse).flatMap
    (fun i => ((List.range i).filter (fun j => j % 2 = 0)).map (fun j => (i, j)))

/-- The loop body of the bubble-sort constructor: for each `(i, j)` take
wires `k1 = i - j` and `k2 = i - j - 1` at their current progress, emit the
2-sorter between consecutive chain nodes, and advance both progresses. -/
def bubbleRawGo (chain : Nat → List String) :
    List (Nat × Nat) → (Nat → Nat) → List Switch
  | [], _ => []
  | (i, j) :: rest, prog =>
      let k1 := i - j
      let k2 := i - j - 1
      Switch.mk
          {(chain k1).getD (prog k1) "", (chain k2).getD (prog k2) ""}
          {(chain k1).getD (prog k1 + 1) "", (chain k2).getD (prog k2 + 1) ""}
          0 0
        :: bubbleRawGo chain rest
            (Function.update (Function.update prog k1 (prog k1 + 1)) k2
              (prog k2 + 1))

/-- `BubbleSortNetwork._generate_original_network`: raises when the two
boundary lists differ in length, otherwise emits the triangular pattern of
2-sorters. -/
def bubbleRaw (leftNodes rightNodes : List VariableNode) :
    Except PyErr (List Switch) :=
  let ln := leftNodes.map VariableNode.name
  let rn := rightNodes.map VariableNode.name
  if ln.length ≠ rn.length then
    .error (.valueError "left_nodes and right_nodes must have the same length")
  else
    .ok (bubbleRawGo (bubbleChain ln rn ln.length) (bubblePairs ln.length)
      (fun _ => 0))

/-- `BubbleSortNetwork.generate_network`: the raw constructor followed by the
simplification pass (`threshold` is accepted and unused, as in the source). -/
def bubbleGenerateNetwork (leftNodes rightNodes : List VariableNode)
    (threshold : Option Nat) (reverse : Bool) : Except PyErr (List Switch) := do
  simplifyNetwork (← bubbleRaw leftNodes rightNodes) rightNodes reverse

/-- Two-wire left boundary used for concrete instances. -/
def c4Left : List VariableNode :=
  [VariableNode.mk "L0" .ZERO_OR_ONE, VariableNode.mk "L1" .ZERO_OR_ONE]

/-- Two-wire all-`ALWAYS_ZERO` right boundary used for concrete instances. -/
def c4Right : List VariableNode :=
  [VariableNode.mk "R0" .ALWAYS_ZERO, VariableNode.mk "R1" .ALWAYS_ZERO]

/-- The raw bubble network on two wires: a single 2-sorter. -/
def c4Raw : List Switch := [Switch.mk {"L0", "L1"} {"R0", "R1"} 0 0]

/-- A one-switch raw network with a free right boundary, used to instantiate
the reverse-flag property. -/
def c5Right : List VariableNode := [VariableNode.mk "R0" .ZERO_OR_ONE]

/-- Its raw switch list. -/
def c5Raw : List Switch := [Switch.mk {"L0"} {"R0"} 0 0]

/-- Five variable names used to instantiate the constraint front-end. -/
def c3Vars : List String := ["x0", "x1", "x2", "x3", "x4"]

/-! ### The Clos-network template (`networks/clos_network_base.py`)

`PermutationChannel` has exactly the fields of `Switch` (left and right
frozensets plus two integer constants, both defaulting to `0`), so channels
are represented by `Switch` here.  The template's unbounded recursion is
modelled with explicit fuel; running out of fuel is a distinguished error
that no Python run produces. -/

/-- Python truthiness of `_implement_if_small`'s return value as tested by
`if result := cls._implement_if_small(...)`: `None` and the empty list are
falsy, a nonempty list is truthy. -/
def pyTruthyList : Option (List Switch) → Bool
  | none => false
  | some l => !l.isEmpty

/-- Python list indexing: negative indices wrap around once, anything still
out of range raises `IndexError`. -/
def pyGet (l : List String) (i : Int) : Except PyErr String :=
  let j : Int := if i < 0 then i + l.length else i
  if h : 0 ≤ j ∧ j.toNat < l.length then .ok (l.get ⟨j.toNat, h.2⟩)
  else .error .indexError

/-- Python extended slice `l[start:stop:step]` for nonnegative bounds and a
positive step (out-of-range positions are never produced by the callers; the
`getD` default is immaterial). -/
def pySliceStep (l : List String) (start stop step : Nat) : List String :=
  (List.range' start ((min stop l.length - start + step - 1) / step) step).map
    (fun idx => l.getD idx "")

/-- The interior-name comprehension
`[f"{names[min(i, index_end - 1)]}_{i}" for i in range(...)]`, over an
explicit index list. -/
def interiorNamesGo (names : List String) (indexEnd : Nat) :
    List Nat → Except PyErr (List String)
  | [] => .ok []
  | i :: rest => do
      let base ← pyGet names (min (i : Int) ((indexEnd : Int) - 1))
      let others ← interiorNamesGo names indexEnd rest
      pure (s!"{base}_{i}" :: others)

/-- Interior node names for block `rr` of an exterior size `n`:
indices `range(n * rr, n * (rr + 1))`. -/
def interiorNames (names : List String) (indexEnd n rr : Nat) :
    Except PyErr (List String) :=
  interiorNamesGo names indexEnd (List.range' (n * rr) n)

/-- The ingress-stage loop: one channel per `rr in range(r)`, slicing the
left boundary and generating the interior names; returns the channels and
the accumulated `ingress_stage_nodes`. -/
def ingressGo (leftNames : List String) (n r : Nat) :
    List Nat → Except PyErr (List Switch × List String)
  | [] => .ok ([], [])
  | rr :: rest => do
      let lis := rr * leftNames.length / r
      let lie := (rr + 1) * leftNames.length / r
      let inames ← interiorNames leftNames lie n rr
      let restRes ← ingressGo leftNames n r rest
      pure
        (Switch.mk ((leftNames.drop lis).take (lie - lis)).toFinset
            inames.toFinset 0 0 :: restRes.1,
          inames ++ restRes.2)

/-- `ingress_stage_channels` and `ingress_stage_nodes`. -/
def ingressStage (leftNames : List String) (n r : Nat) :
    Except PyErr (List Switch × List String) :=
  ingressGo leftNames n r (List.range r)

/-- The egress-stage loop, mirror of the ingress stage on the right
boundary. -/
def egressGo (rightNames : List String) (n r : Nat) :
    List Nat → Except PyErr (List Switch × List String)
  | [] => .ok ([], [])
  | rr :: rest => do
      let ris := rr * rightNames.length / r
      let rie := (rr + 1) * rightNames.length / r
      let inames ← interiorNames rightNames rie n rr
      let restRes ← egressGo rightNames n r rest
      pure
        (Switch.mk inames.toFinset
            ((rightNames.drop ris).take (rie - ris)).toFinset 0 0 :: restRes.1,
          inames ++ restRes.2)

/-- `egress_stage_channels` and `egress_stage_nodes`. -/
def egressStage (rightNames : List String) (n r : Nat) :
    Except PyErr (List Switch × List String) :=
  egressGo rightNames n r (List.range r)

/-- `ClosNetworkBase._generate_original_network`, parameterised by the two
abstract hooks `_implement_if_small` and `_determine_channel_sizes` and an
explicit recursion fuel: small-case early return under Python truthiness, the
`channel size is too small` check, ingress, recursively constructed middle
subnetworks (one per `i_start in range(n)`, over the stride-`n` slices of the
stage nodes, re-wrapped as `VariableNode`s with the default `ZERO_OR_ONE`
attribute), and egress. -/
def closGo (impl : List String → List String → Except PyErr (Option (List Switch)))
    (det : Nat → Nat → Except PyErr (Nat × Nat)) :
    Nat → List VariableNode → List VariableNode → Except PyErr (List Switch)
  | 0, _, _ => .error .fuelExhausted
  | fuel + 1, leftNodes, rightNodes => do
      let leftNames := leftNodes.map VariableNode.name
      let rightNames := rightNodes.map VariableNode.name
      let res ← impl leftNames rightNames
      if pyTruthyList res then
        pure (res.getD [])
      else do
        let nr ← det leftNames.length rightNames.length
        let intermediate := nr.1 * nr.2
        if max leftNames.length rightNames.length > intermediate then
          .error (.valueError "channel size is too small")
        else do
          let ingress ← ingressStage leftNames nr.1 nr.2
          let egress ← egressStage rightNames nr.1 nr.2
          let subnets ← (List.range nr.1).mapM (fun iStart =>
            closGo impl det fuel
              ((pySliceStep ingress.2 iStart intermediate nr.1).map
                (fun nm => VariableNode.mk nm NodeAttribute.ZERO_OR_ONE))
              ((pySliceStep egress.2 iStart intermediate nr.1).map
                (fun nm => VariableNode.mk nm NodeAttribute.ZERO_OR_ONE)))
          pure (ingress.1 ++ subnets.flatten ++ egress.1)

/-! ### The Beneš hooks (`networks/benes_network.py`) -/

/-- `BenesNetwork._implement_if_small`: a single switch over the whole
boundary when `N = max(len(left), len(right)) ≤ 2`, otherwise `None`. -/
def benesImplementIfSmall (ln rn : List String) :
    Except PyErr (Option (List Switch)) :=
  if max ln.length rn.length ≤ 2 then
    .ok (some [Switch.mk ln.toFinset rn.toFinset 0 0])
  else .ok none

/-- The `_determine_channel_sizes` the template actually calls on
`BenesNetwork`: the class only defines `_determine_switch_sizes`, which
nothing calls, so the lookup resolves to the abstract method on
`ClosNetworkBase`, whose body is `pass` and returns `None`; unpacking `None`
into `(n, r)` raises `TypeError`. -/
def benesDetermineChannelSizes (_NL _NR : Nat) : Except PyErr (Nat × Nat) :=
  .error (.typeError "cannot unpack non-iterable NoneType object")

/-- `BenesNetwork._generate_original_network`. -/
def benesRaw (fuel : Nat) (L R : List VariableNode) : Except PyErr (List Switch) :=
  closGo benesImplementIfSmall benesDetermineChannelSizes fuel L R

/-- Two-wire boundaries for the Beneš base case. -/
def c6L2 : List VariableNode :=
  [VariableNode.mk "L0" .ZERO_OR_ONE, VariableNode.mk "L1" .ZERO_OR_ONE]

/-- Right side of the two-wire Beneš base case. -/
def c6R2 : List VariableNode :=
  [VariableNode.mk "R0" .ZERO_OR_ONE, VariableNode.mk "R1" .ZERO_OR_ONE]

/-- Four-wire left boundary (the smallest size that recurses). -/
def c6L4 : List VariableNode :=
  ["L0", "L1", "L2", "L3"].map (fun nm => VariableNode.mk nm .ZERO_OR_ONE)

/-- Four-wire right boundary. -/
def c6R4 : List VariableNode :=
  ["R0", "R1", "R2", "R3"].map (fun nm => VariableNode.mk nm .ZERO_OR_ONE)

/-! ### The max-degree hooks (`networks/clos_network_max_degree.py`)

The class-level mutable `max_degree` (initially `None`) is passed
explicitly as an `Option Nat`; the `num_elements_dict` memo cache only
short-circuits recomputation of a deterministic function and is elided. -/

/-- `AdhocNetworkWithMinimumDegree.implement_if_small`: `ValueError` for
`N < 2`, a single channel over the whole boundary when `max_degree ≥ N`,
otherwise the (to-be-confirmed) empty list. -/
def adhocImplementIfSmall (ln rn : List String) (maxDegree : Nat) :
    Except PyErr (List Switch) :=
  if max ln.length rn.length < 2 then
    .error (.valueError "N must be greater than or equal to 2")
  else if max ln.length rn.length ≤ maxDegree then
    .ok [Switch.mk ln.toFinset rn.toFinset 0 0]
  else .ok []

/-- The `(n, ceil(N / n))` candidates for `n in range(2, max_degree + 1)`. -/
def nrList (md N : Nat) : List (Nat × Nat) :=
  (List.range' 2 (md - 1)).map (fun n => (n, (N + n - 1) / n))

/-- Python `min(..., key=...)` over precomputed keys: the first element
attaining the minimal key (`min` of an empty sequence is the `none` case). -/
def minBySnd {α : Type} : List (α × Nat) → Option (α × Nat)
  | [] => none
  | x :: xs => some (xs.foldl (fun b y => if y.2 < b.2 then y else b) x)

/-- `_get_estimated_cost_and_implementation` (with `_calc_num_elements`
inlined as `r * 2 + cost r * n`): the ad-hoc switch count when that network
is truthy, otherwise the cost of the best `(n, r)` split, recursing on
`r < N`. -/
def mdCost (md : Nat) : Nat → Nat → Except PyErr Nat
  | 0, _ => .error .fuelExhausted
  | fuel + 1, N => do
      let adhoc ← adhocImplementIfSmall ((List.range N).map (fun i => s!"L{i}"))
          ((List.range N).map (fun i => s!"R{i}")) md
      if adhoc.isEmpty then do
        let costs ← (nrList md N).mapM (fun p => do
          let c ← mdCost md fuel p.2
          pure (p, p.2 * 2 + c * p.1))
        match minBySnd costs with
        | some pc => pure pc.2
        | none => .error (.valueError "min() iterable argument is empty")
      else pure adhoc.length

/-- `ClosNetworkWithMaxDegree._determine_channel_sizes`: `RuntimeError` when
the class-level `max_degree` is still `None`, otherwise the cost-minimising
`(n, r)` pair. -/
def mdDetermineChannelSizes (maxDegree : Option Nat) (costFuel : Nat)
    (NL NR : Nat) : Except PyErr (Nat × Nat) :=
  match maxDegree with
  | none => .error (.runtimeError "max_degree is None")
  | some md => do
      let costs ← (nrList md (max NL NR)).mapM (fun p => do
        let c ← mdCost md costFuel p.2
        pure (p, p.2 * 2 + c * p.1))
      match minBySnd costs with
      | some pc => pure pc.1
      | none => .error (.valueError "min() iterable argument is empty")

/-- `ClosNetworkWithMaxDegree._implement_if_small`: `RuntimeError` when
`max_degree` is `None`, otherwise defer to the ad-hoc implementation. -/
def mdImplementIfSmall (maxDegree : Option Nat) (ln rn : List String) :
    Except PyErr (Option (List Switch)) :=
  match maxDegree with
  | none => .error (.runtimeError "max_degree is None")
  | some md => do
      let res ← adhocImplementIfSmall ln rn md
      pure (some res)

/-- `ClosNetworkWithMaxDegree.reset_max_degree`: rejects `new_max < 2`,
otherwise installs the new class-level degree. -/
def resetMaxDegree (newMax : Nat) : Except PyErr (Option Nat) :=
  if newMax < 2 then
    .error (.valueError "new_max must be greater than or equal to 2")
  else .ok (some newMax)

/-- `ClosNetworkWithMaxDegree.generate_network`: the templated original
network under the current `max_degree`, followed by the simplification
pass. -/
def closMaxDegreeGenerateNetwork (maxDegree : Option Nat) (fuel : Nat)
    (L R : List VariableNode) (reverse : Bool) : Except PyErr (List Switch) := do
  simplifyNetwork
    (← closGo (mdImplementIfSmall maxDegree)
        (mdDetermineChannelSizes maxDegree fuel) fuel L R)
    R reverse

/-! ### Closed forms for the `Switch.to_qubo` accumulation -/

lemma toQubo_go_linear (S : List Switch) (v : String) :
    ∀ q : Qubo, (S.foldl quboStep q).linear v
      = q.linear v + (S.map (fun s => switchLinearDelta s v)).sum := by
  induction S with
  | nil => intro q; simp
  | cons a S ih =>
      intro q
      simp only [List.foldl_cons, List.map_cons, List.sum_cons, ih, quboStep]
      ring

lemma toQubo_go_quadratic (S : List Switch) (u v : String) :
    ∀ q : Qubo, (S.foldl quboStep q).quadratic u v
      = q.quadratic u v + (S.map (fun s => switchQuadDelta s u v)).sum := by
  induction S with
  | nil => intro q; simp
  | cons a S ih =>
      intro q
      simp only [List.foldl_cons, List.map_cons, List.sum_cons, ih, quboStep]
      ring

lemma toQubo_go_constant (S : List Switch) :
    ∀ q : Qubo, (S.foldl quboStep q).constant
      = q.constant
        + (S.map (fun s => (s.left_constant - s.right_constant) ^ 2)).sum := by
  induction S with
  | nil => intro q; simp
  | cons a S ih =>
      intro q
      simp only [List.foldl_cons, List.map_cons, List.sum_cons, ih, quboStep]
      ring

lemma toQubo_linear (S : List Switch) (v : String) :
    (toQubo S).linear v = (S.map (fun s => switchLinearDelta s v)).sum := by
  rw [toQubo, toQubo_go_linear]
  simp

lemma toQubo_quadratic (S : List Switch) (u v : String) :
    (toQubo S).quadratic u v = (S.map (fun s => switchQuadDelta s u v)).sum := by
  rw [toQubo, toQubo_go_quadratic]
  simp

lemma toQubo_constant (S : List Switch) :
    (toQubo S).constant
      = (S.map (fun s => (s.left_constant - s.right_constant) ^ 2)).sum := by
  rw [toQubo, toQubo_go_constant]
  simp

lemma vars_subset_foldl (S : List Switch) :
    ∀ q : Qubo, q.vars ⊆ (S.foldl quboStep q).vars := by
  induction S with
  | nil => intro q; simp
  | cons a S ih =>
      intro q
      refine subset_trans ?_ (ih (quboStep q a))
      simp only [quboStep]
      intro v hv
      simp [Finset.mem_union, hv]

lemma switch_nodes_subset_foldl (S : List Switch) (s : Switch) (hs : s ∈ S) :
    ∀ q : Qubo, s.left_nodes ∪ s.right_nodes ⊆ (S.foldl quboStep q).vars := by
  induction S with
  | nil => cases hs
  | cons a S ih =>
      intro q
      rcases List.mem_cons.mp hs with h | h
      · subst h
        refine subset_trans ?_ (vars_subset_foldl S (quboStep q s))
        simp only [quboStep]
        intro v hv
        rcases Finset.mem_union.mp hv with h' | h' <;>
          simp [Finset.mem_union, h']
      · exact ih h _

lemma switch_nodes_subset_vars (S : List Switch) (s : Switch) (hs : s ∈ S) :
    s.left_nodes ∪ s.right_nodes ⊆ (toQubo S).vars :=
  switch_nodes_subset_foldl S s hs _

/-! ### Expansion of a squared sum into linear and pair terms -/

lemma sum_sq_filter_eq (V : Finset String) (f : String × String → Int) :
    ∑ p ∈ (V ×ˢ V).filter (fun p => p.1 = p.2), f p = ∑ v ∈ V, f (v, v) := by
  refine Finset.sum_bij' (fun p _ => p.1) (fun v _ => (v, v)) ?_ ?_ ?_ ?_ ?_
  · intro p hp
    rcases Finset.mem_filter.mp hp with ⟨hp1, _⟩
    exact (Finset.mem_product.mp hp1).1
  · intro v hv
    exact Finset.mem_filter.mpr ⟨Finset.mem_product.mpr ⟨hv, hv⟩, rfl⟩
  · intro p hp
    rcases Finset.mem_filter.mp hp with ⟨_, hpe⟩
    obtain ⟨a, b⟩ := p
    cases hpe
    rfl
  · intro v _
    rfl
  · intro p hp
    rcases Finset.mem_filter.mp hp with ⟨_, hpe⟩
    obtain ⟨a, b⟩ := p
    cases hpe
    rfl

lemma sum_gt_filter_eq (V : Finset String) (f g : String → Int) :
    ∑ p ∈ (V ×ˢ V).filter (fun p => p.2 < p.1), f p.1 * g p.2
      = ∑ p ∈ (V ×ˢ V).filter (fun p => p.1 < p.2), f p.2 * g p.1 := by
  refine Finset.sum_bij' (fun p _ => (p.2, p.1)) (fun p _ => (p.2, p.1)) ?_ ?_ ?_ ?_ ?_
  · intro p hp
    rcases Finset.mem_filter.mp hp with ⟨hp1, hp2⟩
    rcases Finset.mem_product.mp hp1 with ⟨h1, h2⟩
    exact Finset.mem_filter.mpr ⟨Finset.mem_product.mpr ⟨h2, h1⟩, hp2⟩
  · intro p hp
    rcases Finset.mem_filter.mp hp with ⟨hp1, hp2⟩
    rcases Finset.mem_product.mp hp1 with ⟨h1, h2⟩
    exact Finset.mem_filter.mpr ⟨Finset.mem_product.mpr ⟨h2, h1⟩, hp2⟩
  · intro p _; rfl
  · intro p _; rfl
  · intro p _; rfl

/-- Expansion of the square of a finite sum of integers into diagonal and
strictly-ordered pair terms. -/
lemma sq_sum_eq (V : Finset String) (f : String → Int) :
    (∑ v ∈ V, f v) ^ 2
      = (∑ v ∈ V, f v ^ 2) + 2 * ∑ p ∈ quboPairs V, f p.1 * f p.2 := by
  have h1 : (∑ v ∈ V, f v) ^ 2 = ∑ p ∈ V ×ˢ V, f p.1 * f p.2 := by
    rw [sq, Finset.sum_mul_sum, ← Finset.sum_product']
  have h2 : ∑ p ∈ V ×ˢ V, f p.1 * f p.2
      = (∑ p ∈ (V ×ˢ V).filter (fun p => p.1 < p.2), f p.1 * f p.2)
        + ∑ p ∈ (V ×ˢ V).filter (fun p => ¬ p.1 < p.2), f p.1 * f p.2 :=
    (Finset.sum_filter_add_sum_filter_not _ _ _).symm
  have h3 : ∑ p ∈ (V ×ˢ V).filter (fun p => ¬ p.1 < p.2), f p.1 * f p.2
      = (∑ p ∈ ((V ×ˢ V).filter (fun p => ¬ p.1 < p.2)).filter
            (fun p => p.1 = p.2), f p.1 * f p.2)
        + ∑ p ∈ ((V ×ˢ V).filter (fun p => ¬ p.1 < p.2)).filter
            (fun p => ¬ p.1 = p.2), f p.1 * f p.2 :=
    (Finset.sum_filter_add_sum_filter_not _ _ _).symm
  have he : ((V ×ˢ V).filter (fun p => ¬ p.1 < p.2)).filter (fun p => p.1 = p.2)
      = (V ×ˢ V).filter (fun p => p.1 = p.2) := by
    rw [Finset.filter_filter]
    apply Finset.filter_congr
    intro p _
    constructor
    · intro h; exact h.2
    · intro h; exact ⟨by simp [h], h⟩
  have hg : ((V ×ˢ V).filter (fun p => ¬ p.1 < p.2)).filter (fun p => ¬ p.1 = p.2)
      = (V ×ˢ V).filter (fun p => p.2 < p.1) := by
    rw [Finset.filter_filter]
    apply Finset.filter_congr
    intro p _
    constructor
    · intro h
      rcases lt_trichotomy p.1 p.2 with hlt | heq | hgt
      · exact absurd hlt h.1
      · exact absurd heq h.2
      · exact hgt
    · intro h
      exact ⟨not_lt_of_gt h, fun he' => absurd (he' ▸ h) (lt_irrefl _)⟩
  rw [h1, h2, h3, he, hg, sum_sq_filter_eq, sum_gt_filter_eq]
  unfold quboPairs
  have : ∀ p : String × String, f p.2 * f p.1 = f p.1 * f p.2 := fun p => mul_comm _ _
  simp only [this, sq]
  ring

lemma switchQuadDelta_diag (s : Switch)
    (hd : Disjoint s.left_nodes s.right_nodes) (v : String) :
    switchQuadDelta s v v = 0 := by
  have : ¬ (v ∈ s.left_nodes ∧ v ∈ s.right_nodes) :=
    fun h => (Finset.disjoint_left.mp hd h.1) h.2
  simp [switchQuadDelta, this]

lemma sum_ite_mem_subset (L V : Finset String) (hLV : L ⊆ V) (x : String → Int) :
    ∑ v ∈ V, (if v ∈ L then x v else 0) = ∑ v ∈ L, x v := by
  rw [Finset.sum_ite_mem, Finset.inter_eq_right.mpr hLV]

/-- The coefficient `+1 / -1 / 0` with which a variable occurs in the
difference `sum(left_nodes) - sum(right_nodes)` of a switch. -/
def switchSign (s : Switch) (v : String) : Int :=
  (if v ∈ s.left_nodes then 1 else 0) - (if v ∈ s.right_nodes then 1 else 0)

/-- Expanding one switch's squared penalty into the constant, linear,
pair and singleton-key contributions that `Switch.to_qubo` accumulates,
summed over any superset `V` of the switch's variables. -/
lemma switchPenalty_expand (s : Switch) (V : Finset String)
    (hL : s.left_nodes ⊆ V) (hR : s.right_nodes ⊆ V)
    (hd : Disjoint s.left_nodes s.right_nodes)
    (x : String → Int) (hx : zeroOneOn V x) :
    switchPenalty s x
      = (s.left_constant - s.right_constant) ^ 2
        + (∑ v ∈ V, switchLinearDelta s v * x v)
        + (∑ p ∈ quboPairs V, switchQuadDelta s p.1 p.2 * x p.1 * x p.2)
        + (∑ v ∈ V, switchQuadDelta s v v * x v * x v) := by
  classical
  have hsum : (∑ v ∈ s.left_nodes, x v) - (∑ v ∈ s.right_nodes, x v)
      = ∑ v ∈ V, switchSign s v * x v := by
    have h1 : ∀ v ∈ V, switchSign s v * x v
        = (if v ∈ s.left_nodes then x v else 0)
          - (if v ∈ s.right_nodes then x v else 0) := by
      intro v _
      unfold switchSign
      split_ifs <;> ring
    rw [Finset.sum_congr rfl h1, Finset.sum_sub_distrib,
      sum_ite_mem_subset _ _ hL, sum_ite_mem_subset _ _ hR]
  have hpen : switchPenalty s x
      = ((∑ v ∈ V, switchSign s v * x v) + (s.left_constant - s.right_constant)) ^ 2 := by
    unfold switchPenalty
    rw [← hsum]
    ring
  have hmul : ∑ v ∈ V,
        2 * (s.left_constant - s.right_constant) * (switchSign s v * x v)
      = 2 * (s.left_constant - s.right_constant) * ∑ v ∈ V, switchSign s v * x v :=
    (Finset.mul_sum _ _ _).symm
  have hexp : switchPenalty s x
      = (s.left_constant - s.right_constant) ^ 2
        + (∑ v ∈ V, ((switchSign s v * x v) ^ 2
            + 2 * (s.left_constant - s.right_constant) * (switchSign s v * x v)))
        + 2 * ∑ p ∈ quboPairs V,
            (switchSign s p.1 * x p.1) * (switchSign s p.2 * x p.2) := by
    rw [hpen, add_sq, sq_sum_eq V (fun v => switchSign s v * x v),
      Finset.sum_add_distrib, hmul]
    ring
  have hlin : ∀ v ∈ V,
      (switchSign s v * x v) ^ 2
          + 2 * (s.left_constant - s.right_constant) * (switchSign s v * x v)
        = switchLinearDelta s v * x v := by
    intro v hv
    have hx2 : x v * x v = x v := by rcases hx v hv with h | h <;> simp [h]
    by_cases hvL : v ∈ s.left_nodes
    · have hvR : v ∉ s.right_nodes := Finset.disjoint_left.mp hd hvL
      simp only [switchSign, switchLinearDelta, hvL, hvR, if_true, if_false]
      nlinarith [hx2]
    · by_cases hvR : v ∈ s.right_nodes
      · simp only [switchSign, switchLinearDelta, hvL, hvR, if_true, if_false]
        nlinarith [hx2]
      · simp [switchSign, switchLinearDelta, hvL, hvR]
  have hquad : ∀ p ∈ quboPairs V,
      2 * ((switchSign s p.1 * x p.1) * (switchSign s p.2 * x p.2))
        = switchQuadDelta s p.1 p.2 * x p.1 * x p.2 := by
    intro p hp
    have hne : p.1 ≠ p.2 := ne_of_lt (Finset.mem_filter.mp hp).2
    obtain ⟨u, v⟩ := p
    simp only at hne
    have hnotLR : ∀ w, w ∈ s.left_nodes → w ∉ s.right_nodes :=
      fun w hw => Finset.disjoint_left.mp hd hw
    by_cases huL : u ∈ s.left_nodes <;> by_cases hvL : v ∈ s.left_nodes <;>
      by_cases huR : u ∈ s.right_nodes <;> by_cases hvR : v ∈ s.right_nodes <;>
      simp only [switchSign, switchQuadDelta, huL, hvL, huR, hvR, hne,
        Ne.symm hne, ne_eq, not_false_iff, if_true, if_false, and_true,
        true_and, and_false, false_and, not_true, not_false_eq_true,
        if_neg, if_pos] <;>
      first
        | ring
        | exact absurd huR (hnotLR u huL)
        | exact absurd hvR (hnotLR v hvL)
  have hdiagv : ∀ v ∈ V, switchQuadDelta s v v * x v * x v = 0 := by
    intro v _
    rw [switchQuadDelta_diag s hd]
    ring
  calc switchPenalty s x
      = (s.left_constant - s.right_constant) ^ 2
          + (∑ v ∈ V, ((switchSign s v * x v) ^ 2
              + 2 * (s.left_constant - s.right_constant) * (switchSign s v * x v)))
          + 2 * ∑ p ∈ quboPairs V,
              (switchSign s p.1 * x p.1) * (switchSign s p.2 * x p.2) := hexp
    _ = (s.left_constant - s.right_constant) ^ 2
          + (∑ v ∈ V, switchLinearDelta s v * x v)
          + ∑ p ∈ quboPairs V,
              2 * ((switchSign s p.1 * x p.1) * (switchSign s p.2 * x p.2)) := by
        rw [Finset.sum_congr rfl hlin, Finset.mul_sum]
    _ = (s.left_constant - s.right_constant) ^ 2
          + (∑ v ∈ V, switchLinearDelta s v * x v)
          + ∑ p ∈ quboPairs V, switchQuadDelta s p.1 p.2 * x p.1 * x p.2 := by
        rw [Finset.sum_congr rfl hquad]
    _ = (s.left_constant - s.right_constant) ^ 2
          + (∑ v ∈ V, switchLinearDelta s v * x v)
          + (∑ p ∈ quboPairs V, switchQuadDelta s p.1 p.2 * x p.1 * x p.2)
          + (∑ v ∈ V, switchQuadDelta s v v * x v * x v) := by
        rw [Finset.sum_congr rfl hdiagv]
        simp

lemma sum_finset_list_swap (S : List Switch) (V : Finset String)
    (h : Switch → String → Int) :
    ∑ v ∈ V, (S.map (fun s => h s v)).sum
      = (S.map (fun s => ∑ v ∈ V, h s v)).sum := by
  induction S with
  | nil => simp
  | cons a S ih =>
      simp only [List.map_cons, List.sum_cons, Finset.sum_add_distrib, ih]

lemma sum_finset_list_swap_pairs (S : List Switch) (P : Finset (String × String))
    (h : Switch → String × String → Int) :
    ∑ p ∈ P, (S.map (fun s => h s p)).sum
      = (S.map (fun s => ∑ p ∈ P, h s p)).sum := by
  induction S with
  | nil => simp
  | cons a S ih =>
      simp only [List.map_cons, List.sum_cons, Finset.sum_add_distrib, ih]

lemma list_map_sum_add (S : List Switch) (f g : Switch → Int) :
    (S.map f).sum + (S.map g).sum = (S.map (fun s => f s + g s)).sum := by
  induction S with
  | nil => simp
  | cons a S ih =>
      simp only [List.map_cons, List.sum_cons, ← ih]
      ring

/-- The QUBO objective produced by `Switch.to_qubo` evaluates, at any
assignment that is 0/1 on its variables, to the sum of the squared switch
penalties, provided each switch has disjoint sides. -/
lemma quboEval_toQubo (S : List Switch)
    (hd : ∀ s ∈ S, Disjoint s.left_nodes s.right_nodes)
    (x : String → Int) (hx : zeroOneOn (toQubo S).vars x) :
    quboEval (toQubo S) x = (S.map (fun s => switchPenalty s x)).sum := by
  classical
  unfold quboEval
  rw [toQubo_constant]
  have hlin : ∑ v ∈ (toQubo S).vars, (toQubo S).linear v * x v
      = (S.map (fun s => ∑ v ∈ (toQubo S).vars, switchLinearDelta s v * x v)).sum := by
    rw [← sum_finset_list_swap]
    refine Finset.sum_congr rfl ?_
    intro v _
    rw [toQubo_linear, ← List.sum_map_mul_right]
  have hquad : ∑ p ∈ quboPairs (toQubo S).vars,
        (toQubo S).quadratic p.1 p.2 * x p.1 * x p.2
      = (S.map (fun s => ∑ p ∈ quboPairs (toQubo S).vars,
          switchQuadDelta s p.1 p.2 * x p.1 * x p.2)).sum := by
    rw [← sum_finset_list_swap_pairs]
    refine Finset.sum_congr rfl ?_
    intro p _
    rw [toQubo_quadratic, ← List.sum_map_mul_right, ← List.sum_map_mul_right]
  have hdiag : ∑ v ∈ (toQubo S).vars,
        (toQubo S).quadratic v v * x v * x v
      = (S.map (fun s => ∑ v ∈ (toQubo S).vars,
          switchQuadDelta s v v * x v * x v)).sum := by
    rw [← sum_finset_list_swap]
    refine Finset.sum_congr rfl ?_
    intro v _
    rw [toQubo_quadratic, ← List.sum_map_mul_right, ← List.sum_map_mul_right]
  rw [hlin, hquad, hdiag, list_map_sum_add, list_map_sum_add, list_map_sum_add]
  refine congrArg List.sum (List.map_congr_left ?_)
  intro s hs
  have hsub := switch_nodes_subset_vars S s hs
  have hL : s.left_nodes ⊆ (toQubo S).vars :=
    fun v hv => hsub (Finset.mem_union_left _ hv)
  have hR : s.right_nodes ⊆ (toQubo S).vars :=
    fun v hv => hsub (Finset.mem_union_right _ hv)
  exact (switchPenalty_expand s ((toQubo S).vars) hL hR (hd s hs) x hx).symm

lemma switchPenalty_nonneg (s : Switch) (x : String → Int) :
    0 ≤ switchPenalty s x := sq_nonneg _

lemma penaltySum_nonneg (S : List Switch) (x : String → Int) :
    0 ≤ (S.map (fun s => switchPenalty s x)).sum := by
  induction S with
  | nil => simp
  | cons a S ih =>
      simp only [List.map_cons, List.sum_cons]
      have := switchPenalty_nonneg a x
      omega

lemma switchPenalty_eq_zero_iff (s : Switch) (x : String → Int) :
    switchPenalty s x = 0 ↔ switchSat s x := by
  unfold switchPenalty switchSat
  rw [sq_eq_zero_iff]
  constructor <;> intro h <;> linarith

lemma penaltySum_eq_zero_iff (S : List Switch) (x : String → Int) :
    (S.map (fun s => switchPenalty s x)).sum = 0 ↔ ∀ s ∈ S, switchSat s x := by
  induction S with
  | nil => simp
  | cons a S ih =>
      simp only [List.map_cons, List.sum_cons, List.mem_cons]
      have h1 := switchPenalty_nonneg a x
      have h2 := penaltySum_nonneg S x
      constructor
      · intro h
        have ha : switchPenalty a x = 0 := by omega
        have hs : (S.map (fun s => switchPenalty s x)).sum = 0 := by omega
        intro s hs'
        rcases hs' with h' | h'
        · exact h' ▸ (switchPenalty_eq_zero_iff a x).mp ha
        · exact (ih.mp hs) s h'
      · intro h
        have ha : switchPenalty a x = 0 :=
          (switchPenalty_eq_zero_iff a x).mpr (h a (Or.inl rfl))
        have hs : (S.map (fun s => switchPenalty s x)).sum = 0 :=
          ih.mpr (fun s hs' => h s (Or.inr hs'))
        omega

/-- C1: For every finite list of switches with integer constants (each
switch's two sides disjoint, the data-model invariant), the QUBO returned by
`Switch.to_qubo` is nonnegative at every 0/1 assignment of its variables, an
assignment gives the QUBO value 0 exactly when it satisfies every switch's
equation `sum(L) + left_constant = sum(R) + right_constant`, and hence the
minimum value over all 0/1 assignments is 0 iff some 0/1 assignment
simultaneously satisfies every switch. -/
theorem toQubo_zero_iff_satisfiable (S : List Switch)
    (hd : ∀ s ∈ S, Disjoint s.left_nodes s.right_nodes) :
    (∀ x : String → Int, zeroOneOn (toQubo S).vars x →
        0 ≤ quboEval (toQubo S) x)
    ∧ (∀ x : String → Int, zeroOneOn (toQubo S).vars x →
        (quboEval (toQubo S) x = 0 ↔ ∀ s ∈ S, switchSat s x))
    ∧ ((∃ x : String → Int, zeroOneOn (toQubo S).vars x ∧
          quboEval (toQubo S) x = 0)
        ↔ ∃ x : String → Int, zeroOneOn (toQubo S).vars x ∧
            ∀ s ∈ S, switchSat s x) := by
  refine ⟨?_, ?_, ?_⟩
  · intro x hx
    rw [quboEval_toQubo S hd x hx]
    exact penaltySum_nonneg S x
  · intro x hx
    rw [quboEval_toQubo S hd x hx]
    exact penaltySum_eq_zero_iff S x
  · constructor
    · rintro ⟨x, hx, h0⟩
      refine ⟨x, hx, ?_⟩
      rw [quboEval_toQubo S hd x hx] at h0
      exact (penaltySum_eq_zero_iff S x).mp h0
    · rintro ⟨x, hx, hsat⟩
      refine ⟨x, hx, ?_⟩
      rw [quboEval_toQubo S hd x hx]
      exact (penaltySum_eq_zero_iff S x).mpr hsat

/-- Witness for C1: the single switch `L = {a}`, `R = {b}`, constants 0. -/
theorem toQubo_zero_iff_satisfiable_witness :
    (∀ s ∈ [({ left_nodes := {"a"}, right_nodes := {"b"} } : Switch)],
        Disjoint s.left_nodes s.right_nodes)
    ∧ ((∀ x : String → Int,
          zeroOneOn (toQubo [({ left_nodes := {"a"}, right_nodes := {"b"} } : Switch)]).vars x →
          0 ≤ quboEval (toQubo [({ left_nodes := {"a"}, right_nodes := {"b"} } : Switch)]) x)
        ∧ (∀ x : String → Int,
            zeroOneOn (toQubo [({ left_nodes := {"a"}, right_nodes := {"b"} } : Switch)]).vars x →
            (quboEval (toQubo [({ left_nodes := {"a"}, right_nodes := {"b"} } : Switch)]) x = 0
              ↔ ∀ s ∈ [({ left_nodes := {"a"}, right_nodes := {"b"} } : Switch)], switchSat s x))
        ∧ ((∃ x : String → Int,
              zeroOneOn (toQubo [({ left_nodes := {"a"}, right_nodes := {"b"} } : Switch)]).vars x ∧
              quboEval (toQubo [({ left_nodes := {"a"}, right_nodes := {"b"} } : Switch)]) x = 0)
            ↔ ∃ x : String → Int,
                zeroOneOn (toQubo [({ left_nodes := {"a"}, right_nodes := {"b"} } : Switch)]).vars x ∧
                ∀ s ∈ [({ left_nodes := {"a"}, right_nodes := {"b"} } : Switch)], switchSat s x)) :=
  ⟨by decide, toQubo_zero_iff_satisfiable
    [({ left_nodes := {"a"}, right_nodes := {"b"} } : Switch)] (by decide)⟩

/-- C2: `Switch.to_qubo` accumulates, per switch with
`c = left_constant - right_constant`, `+2` on the quadratic key `{u,v}` for
each unordered pair inside `L` and inside `R` and `-2` for each cross pair,
`2c+1` on `linear[u]` for `u ∈ L` and `-2c+1` on `linear[v]` for `v ∈ R`, and
`c^2` on the constant; in particular the single switch `L={L0}`, `R={R0}`,
`cL=1`, `cR=2` yields `linear[L0] = -1`, `linear[R0] = 3`, `constant = 1`. -/
theorem toQubo_accumulation (S : List Switch) (u v : String) (huv : u ≠ v) :
    (toQubo S).quadratic u v
        = (S.map (fun s =>
            (if u ∈ s.left_nodes ∧ v ∈ s.left_nodes then 2 else 0)
            + (if u ∈ s.right_nodes ∧ v ∈ s.right_nodes then 2 else 0)
            - (if u ∈ s.left_nodes ∧ v ∈ s.right_nodes then 2 else 0)
            - (if v ∈ s.left_nodes ∧ u ∈ s.right_nodes then 2 else 0))).sum
    ∧ (∀ w : String, (toQubo S).linear w
        = (S.map (fun s =>
            (if w ∈ s.left_nodes then 2 * (s.left_constant - s.right_constant) + 1 else 0)
            + (if w ∈ s.right_nodes then
                -2 * (s.left_constant - s.right_constant) + 1 else 0))).sum)
    ∧ (toQubo S).constant
        = (S.map (fun s => (s.left_constant - s.right_constant) ^ 2)).sum
    ∧ (toQubo [e4Switch]).linear "L0" = -1
    ∧ (toQubo [e4Switch]).linear "R0" = 3
    ∧ (toQubo [e4Switch]).constant = 1 := by
  refine ⟨?_, ?_, toQubo_constant S, by decide, by decide, by decide⟩
  · rw [toQubo_quadratic]
    refine congrArg List.sum (List.map_congr_left ?_)
    intro s _
    unfold switchQuadDelta
    simp only [ne_eq, huv, not_false_eq_true, and_true, true_and]
    split_ifs <;> ring
  · intro w
    rw [toQubo_linear]
    refine congrArg List.sum (List.map_congr_left ?_)
    intro s _
    unfold switchLinearDelta
    rfl

/-- Witness for C2 at `u = "a"`, `v = "b"`, the empty switch list. -/
theorem toQubo_accumulation_witness :
    ("a" ≠ "b")
    ∧ ((toQubo ([] : List Switch)).quadratic "a" "b"
        = (([] : List Switch).map (fun s =>
            (if "a" ∈ s.left_nodes ∧ "b" ∈ s.left_nodes then 2 else 0)
            + (if "a" ∈ s.right_nodes ∧ "b" ∈ s.right_nodes then 2 else 0)
            - (if "a" ∈ s.left_nodes ∧ "b" ∈ s.right_nodes then 2 else 0)
            - (if "b" ∈ s.left_nodes ∧ "a" ∈ s.right_nodes then 2 else 0))).sum
      ∧ (∀ w : String, (toQubo ([] : List Switch)).linear w
          = (([] : List Switch).map (fun s =>
              (if w ∈ s.left_nodes then 2 * (s.left_constant - s.right_constant) + 1 else 0)
              + (if w ∈ s.right_nodes then
                  -2 * (s.left_constant - s.right_constant) + 1 else 0))).sum)
      ∧ (toQubo ([] : List Switch)).constant
          = (([] : List Switch).map (fun s => (s.left_constant - s.right_constant) ^ 2)).sum
      ∧ (toQubo [e4Switch]).linear "L0" = -1
      ∧ (toQubo [e4Switch]).linear "R0" = 3
      ∧ (toQubo [e4Switch]).constant = 1) :=
  ⟨by decide, toQubo_accumulation [] "a" "b" (by decide)⟩

/-! ### The constraint front-end: `get_initial_nodes` -/

lemma exceptMapM_ok {α β : Type} (l : List α) (f : α → Except PyErr β)
    (g : α → β) (h : ∀ a ∈ l, f a = .ok (g a)) :
    l.mapM f = .ok (l.map g) := by
  induction l with
  | nil => rfl
  | cons a l ih =>
      have ha := h a (List.mem_cons_self a l)
      have hrest := ih (fun b hb => h b (List.mem_cons_of_mem a hb))
      simp only [List.mapM_cons, ha, hrest, List.map_cons]
      rfl

lemma getOriginalRightAttr_ok_of_valid (ct : ConstraintType) (N : Nat)
    (c1 c2 : Option Int) (hv : paramsValid ct N c1 c2 = true) (i : Nat) :
    getOriginalRightAttr ct N c1 c2 i = .ok (specRightAttr ct N c1 c2 i) := by
  cases ct <;>
    simp only [paramsValid] at hv <;>
    first
      | rfl
      | (cases c1 with
          | none => exact absurd hv (by simp)
          | some k =>
              simp only [decide_eq_true_eq] at hv
              simp [getOriginalRightAttr, specRightAttr, hv])
      | (cases c1 with
          | none => exact absurd hv (by simp)
          | some k1 =>
              cases c2 with
              | none => exact absurd hv (by simp)
              | some k2 =>
                  simp only [decide_eq_true_eq] at hv
                  simp [getOriginalRightAttr, specRightAttr, hv])

lemma exceptMapM_range_error {β : Type} (n : Nat) (hn : 0 < n)
    (f : Nat → Except PyErr β) (e : PyErr) (h : f 0 = .error e) :
    (List.range n).mapM f = .error e := by
  cases n with
  | zero => omega
  | succ m =>
      rw [List.range_succ_eq_map]
      simp only [List.mapM_cons, h]
      rfl

lemma getOriginalRightAttr_error_of_invalid (ct : ConstraintType) (N : Nat)
    (c1 c2 : Option Int) (hv : ¬ paramsValid ct N c1 c2 = true) (i : Nat) :
    ∃ e, getOriginalRightAttr ct N c1 c2 i = .error e := by
  cases ct
  case ONE_HOT => exact absurd rfl hv
  case CLAMP =>
      cases c1 with
      | none => exact ⟨_, rfl⟩
      | some k1 =>
          cases c2 with
          | none => exact ⟨_, rfl⟩
          | some k2 =>
              simp only [paramsValid, decide_eq_true_eq] at hv
              exact ⟨.valueError
                s!"c1 and c2 must be valid range (0 <= c1 <= c2 <= {N})",
                by simp [getOriginalRightAttr, hv]⟩
  all_goals
    cases c1 with
    | none => exact ⟨_, rfl⟩
    | some k =>
        simp only [paramsValid, decide_eq_true_eq] at hv
        exact ⟨.valueError s!"c1 must be between 0 and {N}",
          by simp [getOriginalRightAttr, hv]⟩

lemma getInitialNodes_ok_of_valid (vs : List String) (ct : ConstraintType)
    (c1 c2 : Option Int) (expo : Bool)
    (hv : paramsValid ct vs.length c1 c2 = true) :
    getInitialNodes vs ct c1 c2 expo
      = .ok
        (((List.range (padLenOf vs.length expo)).map
            (fun i => VariableNode.mk s!"L{i}" NodeAttribute.ALWAYS_ZERO))
          ++ vs.map (fun v => VariableNode.mk v NodeAttribute.ZERO_OR_ONE),
         ((List.replicate (padLenOf vs.length expo) NodeAttribute.ALWAYS_ZERO
            ++ (List.range vs.length).map
              (specRightAttr ct vs.length c1 c2)).enum.map
          (fun p => VariableNode.mk s!"R{p.1}" p.2))) := by
  simp only [getInitialNodes, padLenOf,
    exceptMapM_ok _ _ (specRightAttr ct vs.length c1 c2)
      (fun i _ => getOriginalRightAttr_ok_of_valid ct vs.length c1 c2 hv i)]
  rfl

/-- C3: for every supported constraint kind with valid parameters,
`get_initial_nodes` succeeds, its right boundary starts with `pad_len`
`ALWAYS_ZERO` padders, and the right-boundary node at offset `i` after the
padders (for `i < original_size`) is named `R(pad_len+i)` and carries exactly
the attribute prescribed by the specification's table (`specRightAttr`). -/
theorem getInitialNodes_right_attr_table (vs : List String)
    (ct : ConstraintType) (c1 c2 : Option Int) (expo : Bool)
    (hv : paramsValid ct vs.length c1 c2 = true) :
    ∃ lr : List VariableNode × List VariableNode,
      getInitialNodes vs ct c1 c2 expo = .ok lr
      ∧ (∀ j, j < padLenOf vs.length expo →
          lr.2.get? j = some (VariableNode.mk s!"R{j}" NodeAttribute.ALWAYS_ZERO))
      ∧ (∀ i, i < vs.length →
          lr.2.get? (padLenOf vs.length expo + i)
            = some (VariableNode.mk s!"R{padLenOf vs.length expo + i}"
                (specRightAttr ct vs.length c1 c2 i))) := by
  refine ⟨_, getInitialNodes_ok_of_valid vs ct c1 c2 expo hv, ?_, ?_⟩
  · intro j hj
    rw [List.get?_map, List.get?_enum, List.get?_append (by simpa using hj)]
    simp [List.get?_eq_getElem?, List.getElem?_replicate, hj]
  · intro i hi
    rw [List.get?_map, List.get?_enum, List.get?_append_right (by simp)]
    simp [List.get?_map, List.get?_eq_getElem?, List.getElem?_range, hi]

/-- Witness for C3: `CLAMP` with `N = 5`, `c1 = 1`, `c2 = 3`. -/
theorem getInitialNodes_right_attr_table_witness :
    (paramsValid .CLAMP c3Vars.length (some 1) (some 3) = true)
    ∧ ∃ lr : List VariableNode × List VariableNode,
        getInitialNodes c3Vars .CLAMP (some 1) (some 3) false = .ok lr
        ∧ (∀ j, j < padLenOf c3Vars.length false →
            lr.2.get? j = some (VariableNode.mk s!"R{j}" NodeAttribute.ALWAYS_ZERO))
        ∧ (∀ i, i < c3Vars.length →
            lr.2.get? (padLenOf c3Vars.length false + i)
              = some (VariableNode.mk s!"R{padLenOf c3Vars.length false + i}"
                  (specRightAttr .CLAMP c3Vars.length (some 1) (some 3) i))) :=
  ⟨by decide, getInitialNodes_right_attr_table c3Vars
    .CLAMP (some 1) (some 3) false (by decide)⟩

/-- The counterexample to C7: with an empty variable list the validator is
never invoked, so `EQUAL_TO` with `c1 = 1 > 0 = N` (a violation of
`0 ≤ c1 ≤ N`) does not fail — `get_initial_nodes` returns empty boundaries. -/
theorem getInitialNodes_empty_invalid_succeeds :
    getInitialNodes [] .EQUAL_TO (some 1) none false = .ok ([], [])
    ∧ paramsValid .EQUAL_TO 0 (some 1) none = false := by
  constructor
  · rfl
  · rfl

/-- C7 (amended): for a nonempty variable list, `get_initial_nodes` fails
exactly when the constraint parameters violate the ranges (`EQUAL_TO`:
`0 ≤ c1 ≤ N`; `LESS_EQUAL`: `0 < c1 ≤ N`; `GREATER_EQUAL`: `0 ≤ c1 < N`;
`CLAMP`: `0 ≤ c1 ≤ c2 ≤ N`; `ONE_HOT`: no parameter); for the empty variable
list the validator never runs and the call succeeds regardless. -/
theorem getInitialNodes_fails_iff_invalid (vs : List String)
    (hne : vs ≠ []) (ct : ConstraintType) (c1 c2 : Option Int) (expo : Bool) :
    (∃ lr, getInitialNodes vs ct c1 c2 expo = .ok lr)
      ↔ paramsValid ct vs.length c1 c2 = true := by
  constructor
  · intro ⟨lr, hlr⟩
    by_contra hv
    obtain ⟨e, he⟩ :=
      getOriginalRightAttr_error_of_invalid ct vs.length c1 c2 hv 0
    have hN : vs.length ≠ 0 := fun h => hne (List.length_eq_zero.mp h)
    have herr :=
      exceptMapM_range_error vs.length (Nat.pos_of_ne_zero hN) _ e he
    have hgi : getInitialNodes vs ct c1 c2 expo = .error e := by
      simp only [getInitialNodes, herr]
      rfl
    rw [hgi] at hlr
    simp at hlr
  · intro hv
    exact ⟨_, getInitialNodes_ok_of_valid vs ct c1 c2 expo hv⟩

/-- Witness for C7 (amended): `["x"]` with `EQUAL_TO` and `c1 = 2 > 1 = N`. -/
theorem getInitialNodes_fails_iff_invalid_witness :
    ((["x"] : List String) ≠ [])
    ∧ ((∃ lr, getInitialNodes ["x"] .EQUAL_TO (some 2) none false = .ok lr)
        ↔ paramsValid .EQUAL_TO (["x"] : List String).length (some 2) none = true) :=
  ⟨by decide, getInitialNodes_fails_iff_invalid ["x"] (by decide)
    .EQUAL_TO (some 2) none false⟩

/-- C8: the duplicate-variable invariant is not enforced at runtime.
Constructing `Switch(left={a}, right={a})` does not fail (pydantic
`BaseModel` never invokes `__post_init__`), even though the written check
would reject it, and `Switch.to_qubo` on that switch stores the coefficient
`-2` under the degenerate singleton key `{a}` — the pair `{v, v}` the claim
says never appears. -/
theorem switch_duplicate_not_rejected :
    mkSwitch {"a"} {"a"} 0 0 = .ok dupSwitch
    ∧ switchPostInitCheck dupSwitch
        = .error (.valueError
            "Duplicate variables found between left_nodes and right_nodes")
    ∧ (toQubo [dupSwitch]).quadratic "a" "a" = -2 := by
  refine ⟨rfl, by rfl, by decide⟩

/-! ### The simplification pass: the reverse flag and the all-zero boundary -/

/-- C5: for a fixed raw switch list and fixed right-boundary attributes, the
reverse flag of the simplification pass only flips the orientation of the
emitted sequence: the `reverse := true` result is the reverse of the
`reverse := false` result (the pass's internal `out`, which is accumulated in
reverse input order), and the two results contain the same set of switches. -/
theorem simplify_reverse_flag (raw : List Switch) (rightNodes : List VariableNode) :
    simplifyNetwork raw rightNodes true
        = (simplifyNetwork raw rightNodes false).map List.reverse
    ∧ ∀ out, simplifyNetwork raw rightNodes false = .ok out →
        simplifyNetwork raw rightNodes true = .ok out.reverse
        ∧ ∀ s : Switch, (s ∈ out.reverse ↔ s ∈ out) := by
  unfold simplifyNetwork
  cases h : simplifyGo (initAttrMap rightNodes)
      (rightNodes.map VariableNode.name).toFinset raw.reverse with
  | error e => simp [Except.map]
  | ok o =>
      constructor
      · simp [Except.map]
      · intro out hout
        simp only [Except.map, if_neg Bool.false_ne_true] at hout
        cases hout
        constructor
        · simp [Except.map]
        · intro s
          exact List.mem_reverse

/-- Witness for C5: the one-switch network `({L0}, {R0})` with a free right
boundary; the pass keeps the switch. -/
theorem simplify_reverse_flag_witness :
    (simplifyNetwork c5Raw c5Right false = .ok [Switch.mk {"L0"} {"R0"} 0 0])
    ∧ (simplifyNetwork c5Raw c5Right true
        = .ok [Switch.mk {"L0"} {"R0"} 0 0].reverse
      ∧ ∀ s : Switch,
          (s ∈ [Switch.mk {"L0"} {"R0"} 0 0].reverse
            ↔ s ∈ [Switch.mk {"L0"} {"R0"} 0 0])) :=
  ⟨by decide, (simplify_reverse_flag c5Raw c5Right).2 _ (by decide)⟩

lemma simplifyStep_allzero (attrMap : String → NodeAttribute)
    (current : Finset String) (s : Switch)
    (hcl : s.left_constant = 0) (hcr : s.right_constant = 0)
    (hattr : ∀ v ∈ current, attrMap v = NodeAttribute.ALWAYS_ZERO)
    (res : (String → NodeAttribute) × Finset String × List Switch)
    (hres : simplifyStep attrMap current s = .ok res) :
    res.2.2.length = s.left_nodes.card
    ∧ (∀ t ∈ res.2.2, t.right_nodes = ∅ ∧ t.left_nodes.card = 1
        ∧ t.left_constant = 0 ∧ t.right_constant = 0)
    ∧ (∀ v ∈ res.2.1, res.1 v = NodeAttribute.ALWAYS_ZERO) := by
  classical
  unfold simplifyStep at hres
  by_cases h1 : s.right_nodes ⊆ current
  swap
  · rw [if_pos h1] at hres
    cases hres
  rw [if_neg (not_not_intro h1)] at hres
  by_cases h2 : Disjoint s.left_nodes (current \ s.right_nodes)
  swap
  · rw [if_pos h2] at hres
    cases hres
  rw [if_neg (not_not_intro h2)] at hres
  have hz : ∀ v ∈ s.right_nodes, attrMap v = NodeAttribute.ALWAYS_ZERO :=
    fun v hv => hattr v (h1 hv)
  have hone : s.right_nodes.filter (fun v => attrMap v = NodeAttribute.ALWAYS_ONE) = ∅ :=
    Finset.filter_eq_empty_iff.mpr (fun v hv h => by rw [hz v hv] at h; cases h)
  have hnz : s.right_nodes.filter (fun v => attrMap v ≠ NodeAttribute.ALWAYS_ZERO) = ∅ :=
    Finset.filter_eq_empty_iff.mpr (fun v hv h => h (hz v hv))
  have hmn : rightSumMin attrMap s = 0 := by
    simp [rightSumMin, hone, hcl, hcr]
  have hmx : rightSumMax attrMap s = 0 := by
    simp [rightSumMax, hnz, hcl, hcr]
  rw [hmn, hmx] at hres
  rw [if_neg (by simp)] at hres
  by_cases hn : (0 : Int) = (s.left_nodes.card : Int)
  · rw [if_pos hn] at hres
    have hempty : s.left_nodes = ∅ :=
      Finset.card_eq_zero.mp (by exact_mod_cast hn.symm)
    cases hres
    refine ⟨?_, ?_, ?_⟩
    · rw [List.length_map, sortedNodes_length]
    · intro t ht
      rw [hempty, sortedNodes_empty] at ht
      simp at ht
    · intro v hv
      simp only [updAttr, hempty, Finset.not_mem_empty, if_false]
      rcases Finset.mem_union.mp hv with h | h
      · exact hattr v (Finset.mem_sdiff.mp h).1
      · rw [hempty] at h
        cases Finset.not_mem_empty v h
  · rw [if_neg hn, if_pos rfl] at hres
    cases hres
    refine ⟨?_, ?_, ?_⟩
    · rw [List.length_map, sortedNodes_length]
    · intro t ht
      simp only [List.mem_map] at ht
      obtain ⟨v, _, rfl⟩ := ht
      refine ⟨rfl, ?_, rfl, rfl⟩
      simp
    · intro v hv
      rcases Finset.mem_union.mp hv with h | h
      · by_cases hm : v ∈ s.left_nodes
        · simp [updAttr, hm]
        · simp only [updAttr, hm, if_false]
          exact hattr v (Finset.mem_sdiff.mp h).1
      · simp [updAttr, h]

lemma simplifyGo_allzero (procList : List Switch) :
    ∀ (attrMap : String → NodeAttribute) (current : Finset String),
    (∀ s ∈ procList, s.left_constant = 0 ∧ s.right_constant = 0) →
    (∀ v ∈ current, attrMap v = NodeAttribute.ALWAYS_ZERO) →
    ∀ out, simplifyGo attrMap current procList = .ok out →
    out.length = (procList.map (fun s => s.left_nodes.card)).sum
    ∧ ∀ t ∈ out, t.right_nodes = ∅ ∧ t.left_nodes.card = 1
        ∧ t.left_constant = 0 ∧ t.right_constant = 0 := by
  induction procList with
  | nil =>
      intro attrMap current _ _ out hout
      cases hout
      simp
  | cons s rest ih =>
      intro attrMap current hc hattr out hout
      unfold simplifyGo at hout
      cases hstep : simplifyStep attrMap current s with
      | error e => simp [hstep, bind, Except.bind] at hout
      | ok res =>
          obtain ⟨a1, c1, em⟩ := res
          simp only [hstep, bind, Except.bind] at hout
          cases hrest : simplifyGo a1 c1 rest with
          | error e => simp [hrest, Functor.map, Except.map] at hout
          | ok o =>
              simp only [hrest, Functor.map, Except.map] at hout
              have hs := simplifyStep_allzero attrMap current s
                (hc s (List.mem_cons_self s rest)).1
                (hc s (List.mem_cons_self s rest)).2 hattr (a1, c1, em) hstep
              have hr := ih a1 c1
                (fun t ht => hc t (List.mem_cons_of_mem s ht)) hs.2.2 o hrest
              have hout2 : em ++ o = out := by
                simpa [pure, Except.pure] using hout
              subst hout2
              constructor
              · simp only [List.length_append, List.map_cons, List.sum_cons]
                rw [hr.1]
                have : em.length = s.left_nodes.card := hs.1
                omega
              · intro t ht
                rcases List.mem_append.mp ht with h | h
                · exact hs.2.1 t h
                · exact hr.2 t h

lemma initAttrMap_go_allzero (l : List VariableNode)
    (hz : ∀ nd ∈ l, nd.attr = NodeAttribute.ALWAYS_ZERO) :
    ∀ (f : String → NodeAttribute) (v : String),
      (v ∈ l.map VariableNode.name ∨ f v = NodeAttribute.ALWAYS_ZERO) →
      (l.foldl (fun f node => Function.update f node.name node.attr) f) v
        = NodeAttribute.ALWAYS_ZERO := by
  induction l with
  | nil =>
      intro f v h
      rcases h with h | h
      · cases h
      · exact h
  | cons a l ih =>
      intro f v h
      simp only [List.foldl_cons]
      apply ih (fun nd hnd => hz nd (List.mem_cons_of_mem a hnd))
      rcases h with h | h
      · rw [List.map_cons] at h
        rcases List.mem_cons.mp h with h' | h'
        · right
          rw [h', Function.update_same]
          exact hz a (List.mem_cons_self a l)
        · left
          exact h'
      · by_cases hv : v = a.name
        · right
          rw [hv, Function.update_same]
          exact hz a (List.mem_cons_self a l)
        · right
          rw [Function.update_noteq hv]
          exact h

/-- C4 (amended): on a raw network whose switches all have zero constants (as
the bubble-, bitonic- and odd-even-sort constructors produce) and an
all-`ALWAYS_ZERO` right boundary, the simplification pass does not return the
empty list; it returns exactly one degenerate zero-fixing switch
`({v}, ∅, 0, 0)` per left node of each raw switch — so the output has one
switch per raw left node and every output switch is such a fixation. -/
theorem simplify_allzero_only_fixations (raw : List Switch)
    (rightNodes : List VariableNode)
    (hc : ∀ s ∈ raw, s.left_constant = 0 ∧ s.right_constant = 0)
    (hz : ∀ nd ∈ rightNodes, nd.attr = NodeAttribute.ALWAYS_ZERO)
    (rev : Bool) (out : List Switch)
    (hout : simplifyNetwork raw rightNodes rev = .ok out) :
    out.length = (raw.map (fun s => s.left_nodes.card)).sum
    ∧ ∀ t ∈ out, t.right_nodes = ∅ ∧ t.left_nodes.card = 1
        ∧ t.left_constant = 0 ∧ t.right_constant = 0 := by
  unfold simplifyNetwork at hout
  cases hgo : simplifyGo (initAttrMap rightNodes)
      (rightNodes.map VariableNode.name).toFinset raw.reverse with
  | error e => rw [hgo] at hout; cases hout
  | ok o =>
      rw [hgo] at hout
      have hinit : ∀ v ∈ (rightNodes.map VariableNode.name).toFinset,
          initAttrMap rightNodes v = NodeAttribute.ALWAYS_ZERO := by
        intro v hv
        exact initAttrMap_go_allzero rightNodes hz _ v
          (Or.inl (by simpa using hv))
      have hmain := simplifyGo_allzero raw.reverse (initAttrMap rightNodes)
        (rightNodes.map VariableNode.name).toFinset
        (fun s hs => hc s (List.mem_reverse.mp hs)) hinit o hgo
      have hsum : (raw.reverse.map (fun s => s.left_nodes.card)).sum
          = (raw.map (fun s => s.left_nodes.card)).sum := by
        rw [List.map_reverse, List.sum_reverse]
      rw [hsum] at hmain
      have hrev : out = if rev then o.reverse else o := by
        cases hout
        rfl
      subst hrev
      cases rev with
      | false => exact hmain
      | true =>
          constructor
          · rw [if_pos rfl, List.length_reverse]
            exact hmain.1
          · intro t ht
            rw [if_pos rfl] at ht
            exact hmain.2 t (List.mem_reverse.mp ht)

lemma c4_bubble_eval : bubbleGenerateNetwork c4Left c4Right none false
    = .ok [Switch.mk {"L0"} ∅ 0 0, Switch.mk {"L1"} ∅ 0 0] := rfl

lemma c4_simplify_eval : simplifyNetwork c4Raw c4Right false
    = .ok [Switch.mk {"L0"} ∅ 0 0, Switch.mk {"L1"} ∅ 0 0] := rfl

/-- Counterexample to C4 as stated: the bubble-sort constructor on two wires
with an all-`ALWAYS_ZERO` right boundary; `generate_network` returns the two
zero-fixing switches, not the empty list. -/
theorem bubble_allzero_nonempty :
    bubbleGenerateNetwork c4Left c4Right none false
      = .ok [Switch.mk {"L0"} ∅ 0 0, Switch.mk {"L1"} ∅ 0 0]
    ∧ ¬ bubbleGenerateNetwork c4Left c4Right none false = .ok [] := by
  refine ⟨c4_bubble_eval, ?_⟩
  rw [c4_bubble_eval]
  intro hcontra
  simp at hcontra

/-- Witness for C4 (amended): the two-wire raw bubble network against the
all-zero boundary. -/
theorem simplify_allzero_only_fixations_witness :
    (∀ s ∈ c4Raw, s.left_constant = 0 ∧ s.right_constant = 0)
    ∧ (∀ nd ∈ c4Right, nd.attr = NodeAttribute.ALWAYS_ZERO)
    ∧ simplifyNetwork c4Raw c4Right false
        = .ok [Switch.mk {"L0"} ∅ 0 0, Switch.mk {"L1"} ∅ 0 0]
    ∧ (([Switch.mk {"L0"} ∅ 0 0, Switch.mk {"L1"} ∅ 0 0] : List Switch).length
          = (c4Raw.map (fun s => s.left_nodes.card)).sum
        ∧ ∀ t ∈ ([Switch.mk {"L0"} ∅ 0 0, Switch.mk {"L1"} ∅ 0 0] : List Switch),
            t.right_nodes = ∅ ∧ t.left_nodes.card = 1
              ∧ t.left_constant = 0 ∧ t.right_constant = 0) :=
  ⟨by decide, by decide, c4_simplify_eval,
    simplify_allzero_only_fixations c4Raw c4Right (by decide) (by decide)
      false _ c4_simplify_eval⟩

/-! ### Bubble-sort constructor switch count -/

lemma bubbleRawGo_length (chain : Nat → List String) (pl : List (Nat × Nat)) :
    ∀ prog, (bubbleRawGo chain pl prog).length = pl.length := by
  induction pl with
  | nil => intro prog; rfl
  | cons p rest ih =>
      intro prog
      obtain ⟨i, j⟩ := p
      simp only [bubbleRawGo, List.length_cons, ih]

lemma range_filter_even_length (i : Nat) :
    ((List.range i).filter (fun j => j % 2 = 0)).length = (i + 1) / 2 := by
  induction i with
  | zero => rfl
  | succ k ih =>
      rw [List.range_succ, List.filter_append, List.length_append, ih]
      by_cases hk : k % 2 = 0 <;> simp [List.filter, hk] <;> omega

lemma bubbleHalfSum_succ (m : Nat) :
    ((List.range' 1 (m + 1)).map (fun i => (i + 1) / 2)).sum
      = ((List.range' 1 m).map (fun i => (i + 1) / 2)).sum + (m + 2) / 2 := by
  rw [List.range'_concat, List.map_append, List.sum_append, List.map_cons,
    List.map_nil, List.sum_cons, List.sum_nil, add_zero,
    show 1 + 1 * m + 1 = m + 2 by omega]

lemma bubbleHalfSum_pair (m : Nat) :
    ((List.range' 1 m).map (fun i => (i + 1) / 2)).sum
        + ((List.range' 1 (m - 1)).map (fun i => (i + 1) / 2)).sum
      = (m + 1) * m / 2 := by
  induction m with
  | zero => rfl
  | succ k ih =>
      cases k with
      | zero => rfl
      | succ j =>
          have h1 := bubbleHalfSum_succ (j + 1)
          have h2 := bubbleHalfSum_succ j
          simp only [Nat.add_sub_cancel] at ih ⊢
          have h4 : (j + 1 + 1 + 1) * (j + 1 + 1)
              = (j + 1 + 1) * (j + 1) + (j + 1 + 1) * 2 := by ring
          omega

lemma bubblePairs_length (N : Nat) :
    (bubblePairs N).length = N * (N - 1) / 2 := by
  unfold bubblePairs
  rw [List.length_flatMap]
  have hcomp : ∀ i : Nat,
      (List.length ∘ fun i =>
        ((List.range i).filter (fun j => j % 2 = 0)).map (fun j => (i, j))) i
        = (i + 1) / 2 := by
    intro i
    simp only [Function.comp, List.length_map]
    exact range_filter_even_length i
  rw [List.map_append, List.map_reverse, List.sum_append, List.sum_reverse]
  rw [List.map_congr_left (fun i _ => hcomp i), List.map_congr_left (fun i _ => hcomp i)]
  cases N with
  | zero => rfl
  | succ m =>
      have := bubbleHalfSum_pair m
      simpa using this

/-- C9: for equal-length boundary lists with `N ≥ 1` wires, the bubble-sort
raw constructor succeeds and returns exactly `N * (N - 1) / 2` switches. -/
theorem bubbleRaw_switch_count (L R : List VariableNode)
    (hlen : L.length = R.length) (hpos : 1 ≤ L.length) :
    ∃ l, bubbleRaw L R = .ok l ∧ l.length = L.length * (L.length - 1) / 2 := by
  have hln : (L.map VariableNode.name).length = (R.map VariableNode.name).length := by
    simp [hlen]
  refine ⟨bubbleRawGo
      (bubbleChain (L.map VariableNode.name) (R.map VariableNode.name)
        (L.map VariableNode.name).length)
      (bubblePairs (L.map VariableNode.name).length) (fun _ => 0), ?_, ?_⟩
  · simp only [bubbleRaw]
    rw [if_neg (not_not_intro hln)]
  · rw [bubbleRawGo_length, bubblePairs_length]
    simp

/-- Witness for C9: three wires give three switches. -/
theorem bubbleRaw_switch_count_witness :
    ((["L0", "L1", "L2"].map (fun n => VariableNode.mk n .ZERO_OR_ONE)).length
        = (["R0", "R1", "R2"].map (fun n => VariableNode.mk n .ZERO_OR_ONE)).length)
    ∧ (1 ≤ (["L0", "L1", "L2"].map (fun n => VariableNode.mk n .ZERO_OR_ONE)).length)
    ∧ ∃ l, bubbleRaw (["L0", "L1", "L2"].map (fun n => VariableNode.mk n .ZERO_OR_ONE))
          (["R0", "R1", "R2"].map (fun n => VariableNode.mk n .ZERO_OR_ONE)) = .ok l
        ∧ l.length
          = (["L0", "L1", "L2"].map (fun n => VariableNode.mk n .ZERO_OR_ONE)).length
            * ((["L0", "L1", "L2"].map (fun n => VariableNode.mk n .ZERO_OR_ONE)).length - 1) / 2 :=
  ⟨by decide, by decide,
    bubbleRaw_switch_count _ _ (by decide) (by decide)⟩

/-! ### Error analysis of the Clos template -/

lemma except_bind_error {α β : Type} {x : Except PyErr α}
    {f : α → Except PyErr β} {e : PyErr} (h : x >>= f = .error e) :
    x = .error e ∨ ∃ a, x = .ok a ∧ f a = .error e := by
  cases x with
  | error e2 =>
      left
      simp only [bind, Except.bind] at h
      injection h with h1
      rw [h1]
  | ok a =>
      right
      simp only [bind, Except.bind] at h
      exact ⟨a, rfl, h⟩

lemma exceptMapM_error_mem {α β : Type} (l : List α)
    (f : α → Except PyErr β) (e : PyErr) (h : l.mapM f = .error e) :
    ∃ a ∈ l, f a = .error e := by
  induction l with
  | nil =>
      rw [List.mapM_nil] at h
      exact absurd h (by simp [pure, Except.pure])
  | cons a as ih =>
      rw [List.mapM_cons] at h
      rcases except_bind_error h with h1 | ⟨b, hb, h⟩
      · exact ⟨a, List.mem_cons_self a as, h1⟩
      · rcases except_bind_error h with h2 | ⟨bs, hbs, h⟩
        · obtain ⟨c, hc, hce⟩ := ih h2
          exact ⟨c, List.mem_cons_of_mem a hc, hce⟩
        · exact absurd h (by simp [pure, Except.pure])

lemma pyGet_error (l : List String) (i : Int) (e : PyErr)
    (h : pyGet l i = .error e) : e = .indexError := by
  simp only [pyGet] at h
  split at h <;> split at h
  all_goals
    first
      | (injection h with h1
         exact h1.symm)
      | (exact absurd h (by simp))

lemma interiorNamesGo_error (names : List String) (indexEnd : Nat) :
    ∀ (l : List Nat) (e : PyErr),
      interiorNamesGo names indexEnd l = .error e → e = .indexError
  | [], e, h => absurd h (by simp [interiorNamesGo])
  | i :: rest, e, h => by
      simp only [interiorNamesGo] at h
      rcases except_bind_error h with h1 | ⟨b, hb, h⟩
      · exact pyGet_error _ _ _ h1
      · rcases except_bind_error h with h2 | ⟨bs, hbs, h⟩
        · exact interiorNamesGo_error names indexEnd rest e h2
        · exact absurd h (by simp [pure, Except.pure])

lemma interiorNames_error (names : List String) (indexEnd n rr : Nat)
    (e : PyErr) (h : interiorNames names indexEnd n rr = .error e) :
    e = .indexError :=
  interiorNamesGo_error names indexEnd (List.range' (n * rr) n) e h

lemma ingressGo_error (ln : List String) (n r : Nat) :
    ∀ (l : List Nat) (e : PyErr), ingressGo ln n r l = .error e → e = .indexError
  | [], e, h => absurd h (by simp [ingressGo])
  | rr :: rest, e, h => by
      simp only [ingressGo] at h
      rcases except_bind_error h with h1 | ⟨inames, hi, h⟩
      · exact interiorNames_error _ _ _ _ _ h1
      · rcases except_bind_error h with h2 | ⟨restRes, hr, h⟩
        · exact ingressGo_error ln n r rest e h2
        · exact absurd h (by simp [pure, Except.pure])

lemma egressGo_error (rn : List String) (n r : Nat) :
    ∀ (l : List Nat) (e : PyErr), egressGo rn n r l = .error e → e = .indexError
  | [], e, h => absurd h (by simp [egressGo])
  | rr :: rest, e, h => by
      simp only [egressGo] at h
      rcases except_bind_error h with h1 | ⟨inames, hi, h⟩
      · exact interiorNames_error _ _ _ _ _ h1
      · rcases except_bind_error h with h2 | ⟨restRes, hr, h⟩
        · exact egressGo_error rn n r rest e h2
        · exact absurd h (by simp [pure, Except.pure])

lemma ingressStage_error (ln : List String) (n r : Nat) (e : PyErr)
    (h : ingressStage ln n r = .error e) : e = .indexError :=
  ingressGo_error ln n r (List.range r) e h

lemma egressStage_error (rn : List String) (n r : Nat) (e : PyErr)
    (h : egressStage rn n r = .error e) : e = .indexError :=
  egressGo_error rn n r (List.range r) e h

/-- An error that no hook produces and that is not one of the template's own
error forms never comes out of the templated constructor. -/
lemma closGo_ne_error
    (impl : List String → List String → Except PyErr (Option (List Switch)))
    (det : Nat → Nat → Except PyErr (Nat × Nat)) (e : PyErr)
    (himpl : ∀ ln rn, impl ln rn ≠ .error e)
    (hdet : ∀ a b, det a b ≠ .error e)
    (hv : ∀ msg, e ≠ PyErr.valueError msg)
    (hf : e ≠ PyErr.fuelExhausted)
    (hi : e ≠ PyErr.indexError) :
    ∀ (fuel : Nat) (L R : List VariableNode),
      closGo impl det fuel L R ≠ .error e := by
  intro fuel
  induction fuel with
  | zero =>
      intro L R h
      simp only [closGo] at h
      injection h with h1
      exact hf h1.symm
  | succ f ih =>
      intro L R h
      simp only [closGo] at h
      rcases except_bind_error h with h1 | ⟨res, hres, h⟩
      · exact himpl _ _ h1
      · split at h
        · exact absurd h (by simp [pure, Except.pure])
        · rcases except_bind_error h with h2 | ⟨nr, hnr, h⟩
          · exact hdet _ _ h2
          · split at h
            · injection h with h3
              exact hv _ h3.symm
            · rcases except_bind_error h with h4 | ⟨ing, hing, h⟩
              · exact hi (ingressStage_error _ _ _ _ h4)
              · rcases except_bind_error h with h5 | ⟨eg, heg, h⟩
                · exact hi (egressStage_error _ _ _ _ h5)
                · rcases except_bind_error h with h6 | ⟨subnets, hsub, h⟩
                  · obtain ⟨iStart, hmem, herr⟩ := exceptMapM_error_mem _ _ _ h6
                    exact ih _ _ herr
                  · exact absurd h (by simp [pure, Except.pure])

lemma adhocImplementIfSmall_error (ln rn : List String) (md : Nat) (e : PyErr)
    (h : adhocImplementIfSmall ln rn md = .error e) :
    e = .valueError "N must be greater than or equal to 2" := by
  simp only [adhocImplementIfSmall] at h
  split at h
  · injection h with h1
    exact h1.symm
  · split at h
    · exact absurd h (by simp)
    · exact absurd h (by simp)

lemma mdCost_error (md : Nat) :
    ∀ (fuel N : Nat) (e : PyErr), mdCost md fuel N = .error e →
      e = .fuelExhausted ∨ ∃ msg, e = .valueError msg
  | 0, N, e, h => by
      left
      simp only [mdCost] at h
      injection h with h1
      exact h1.symm
  | fuel + 1, N, e, h => by
      simp only [mdCost] at h
      rcases except_bind_error h with h1 | ⟨adhoc, ha, h⟩
      · exact Or.inr ⟨_, adhocImplementIfSmall_error _ _ _ _ h1⟩
      · split at h
        · rcases except_bind_error h with h2 | ⟨costs, hc, h⟩
          · obtain ⟨p, hp, hpe⟩ := exceptMapM_error_mem _ _ _ h2
            rcases except_bind_error hpe with h3 | ⟨c, hcp, h3⟩
            · exact mdCost_error md fuel p.2 e h3
            · exact absurd h3 (by simp [pure, Except.pure])
          · split at h
            · exact absurd h (by simp [pure, Except.pure])
            · injection h with h1
              exact Or.inr ⟨_, h1.symm⟩
        · exact absurd h (by simp [pure, Except.pure])

lemma mdImplementIfSmall_ne (k : Nat) (ln rn : List String) :
    mdImplementIfSmall (some k) ln rn
      ≠ .error (.runtimeError "max_degree is None") := by
  intro h
  simp only [mdImplementIfSmall] at h
  rcases except_bind_error h with h1 | ⟨res, hr, h⟩
  · cases adhocImplementIfSmall_error _ _ _ _ h1
  · exact absurd h (by simp [pure, Except.pure])

lemma mdDetermineChannelSizes_ne (k cf NL NR : Nat) :
    mdDetermineChannelSizes (some k) cf NL NR
      ≠ .error (.runtimeError "max_degree is None") := by
  intro h
  simp only [mdDetermineChannelSizes] at h
  rcases except_bind_error h with h1 | ⟨costs, hc, h⟩
  · obtain ⟨p, hp, hpe⟩ := exceptMapM_error_mem _ _ _ h1
    rcases except_bind_error hpe with h2 | ⟨c, hcc, h2⟩
    · rcases mdCost_error k cf p.2 _ h2 with h3 | ⟨msg, h3⟩ <;> cases h3
    · exact absurd h2 (by simp [pure, Except.pure])
  · split at h
    · exact absurd h (by simp [pure, Except.pure])
    · injection h with h1
      cases h1

lemma simplifyStep_error (attrMap : String → NodeAttribute)
    (current : Finset String) (s : Switch) (e : PyErr)
    (h : simplifyStep attrMap current s = .error e) :
    ∃ msg, e = PyErr.valueError msg := by
  simp only [simplifyStep] at h
  split at h
  · exact ⟨_, by injection h with h1; exact h1.symm⟩
  · split at h
    · exact ⟨_, by injection h with h1; exact h1.symm⟩
    · split at h
      · exact ⟨_, by injection h with h1; exact h1.symm⟩
      · split at h
        · exact absurd h (by simp)
        · split at h
          · exact absurd h (by simp)
          · split at h
            · exact absurd h (by simp)
            · exact absurd h (by simp)

lemma simplifyGo_error :
    ∀ (l : List Switch) (attrMap : String → NodeAttribute)
      (current : Finset String) (e : PyErr),
      simplifyGo attrMap current l = .error e → ∃ msg, e = PyErr.valueError msg
  | [], _, _, e, h => absurd h (by simp [simplifyGo])
  | s :: rest, am, cur, e, h => by
      simp only [simplifyGo] at h
      rcases except_bind_error h with h1 | ⟨res, hres, h⟩
      · exact simplifyStep_error _ _ _ _ h1
      · obtain ⟨am1, cur1, em⟩ := res
        rcases except_bind_error h with h2 | ⟨out, hout, h⟩
        · exact simplifyGo_error rest am1 cur1 e h2
        · exact absurd h (by simp [pure, Except.pure])

lemma simplifyNetwork_error (raw : List Switch) (R : List VariableNode)
    (rev : Bool) (e : PyErr) (h : simplifyNetwork raw R rev = .error e) :
    ∃ msg, e = PyErr.valueError msg := by
  unfold simplifyNetwork at h
  cases hgo : simplifyGo (initAttrMap R) (R.map VariableNode.name).toFinset
      raw.reverse with
  | error e2 =>
      rw [hgo] at h
      simp only [Except.map] at h
      injection h with h1
      exact h1 ▸ simplifyGo_error _ _ _ _ hgo
  | ok o =>
      rw [hgo] at h
      simp [Except.map] at h

/-- C6: on `N = max(|left|, |right|) ≤ 2` the Beneš raw builder returns one
switch over the full boundary, as claimed; but the recursive case never
builds the three-stage Clos structure: `_determine_channel_sizes` is left
abstract (the subclass defines `_determine_switch_sizes` instead), so the
first recursive input, `N = 4`, raises `TypeError` instead of recursing. -/
theorem benes_base_ok_recursion_type_errors :
    (∀ (L R : List VariableNode) (fuel : Nat), 0 < fuel →
        max L.length R.length ≤ 2 →
        benesRaw fuel L R
          = .ok [Switch.mk (L.map VariableNode.name).toFinset
              (R.map VariableNode.name).toFinset 0 0])
    ∧ benesRaw 5 c6L4 c6R4
        = .error (.typeError "cannot unpack non-iterable NoneType object") := by
  constructor
  · intro L R fuel hfuel hN
    obtain ⟨f, rfl⟩ : ∃ f, fuel = f + 1 := ⟨fuel - 1, by omega⟩
    have hL : L.length ≤ 2 := le_trans (le_max_left _ _) hN
    have hR : R.length ≤ 2 := le_trans (le_max_right _ _) hN
    simp [benesRaw, closGo, benesImplementIfSmall, hL, hR, pyTruthyList,
      bind, Except.bind, pure, Except.pure]
  · rfl

/-- Witness for C6: the two-wire base case produces the single switch. -/
theorem benes_base_ok_recursion_type_errors_witness :
    benesRaw 1 c6L2 c6R2
      = .ok [Switch.mk (c6L2.map VariableNode.name).toFinset
          (c6R2.map VariableNode.name).toFinset 0 0] :=
  benes_base_ok_recursion_type_errors.1 c6L2 c6R2 1 (by decide) (by decide)

/-- C10: with the class-level `max_degree` still `None`, `generate_network`
fails with `RuntimeError("max_degree is None")`; after `reset_max_degree(k)`
with `k ≥ 2` (which succeeds and installs `k`) the same call can never
produce that error; and `reset_max_degree` itself rejects `k < 2` with
`ValueError`. -/
theorem closMaxDegree_requires_reset (L R : List VariableNode) (fuel : Nat)
    (hfuel : 0 < fuel) (hN : 2 ≤ max L.length R.length)
    (k : Nat) (hk : 2 ≤ k) (k2 : Nat) (hk2 : k2 < 2) (rev : Bool) :
    closMaxDegreeGenerateNetwork none fuel L R rev
        = .error (.runtimeError "max_degree is None")
    ∧ resetMaxDegree k = .ok (some k)
    ∧ (∀ (fuel2 : Nat) (L2 R2 : List VariableNode) (rev2 : Bool),
        closMaxDegreeGenerateNetwork (some k) fuel2 L2 R2 rev2
          ≠ .error (.runtimeError "max_degree is None"))
    ∧ resetMaxDegree k2
        = .error (.valueError "new_max must be greater than or equal to 2") := by
  refine ⟨?_, ?_, ?_, ?_⟩
  · obtain ⟨f, rfl⟩ : ∃ f, fuel = f + 1 := ⟨fuel - 1, by omega⟩
    simp [closMaxDegreeGenerateNetwork, closGo, mdImplementIfSmall,
      bind, Except.bind]
  · simp only [resetMaxDegree, if_neg (Nat.not_lt.mpr hk)]
  · intro fuel2 L2 R2 rev2 h
    simp only [closMaxDegreeGenerateNetwork] at h
    rcases except_bind_error h with h1 | ⟨net, hnet, h⟩
    · exact closGo_ne_error _ _ _ (mdImplementIfSmall_ne k)
        (mdDetermineChannelSizes_ne k fuel2)
        (fun msg hmsg => by cases hmsg) (by intro hh; cases hh)
        (by intro hh; cases hh) fuel2 L2 R2 h1
    · obtain ⟨msg, hmsg⟩ := simplifyNetwork_error _ _ _ _ h
      cases hmsg
  · simp [resetMaxDegree, hk2]

/-- Witness for C10: two wires, `fuel = 1`, `k = 2`, rejected `k = 1`. -/
theorem closMaxDegree_requires_reset_witness :
    (0 < 1 ∧ 2 ≤ max c6L2.length c6R2.length ∧ 2 ≤ 2 ∧ 1 < 2)
    ∧ (closMaxDegreeGenerateNetwork none 1 c6L2 c6R2 false
        = .error (.runtimeError "max_degree is None")
      ∧ resetMaxDegree 2 = .ok (some 2)
      ∧ (∀ (fuel2 : Nat) (L2 R2 : List VariableNode) (rev2 : Bool),
          closMaxDegreeGenerateNetwork (some 2) fuel2 L2 R2 rev2
            ≠ .error (.runtimeError "max_degree is None"))
      ∧ resetMaxDegree 1
          = .error (.valueError "new_max must be greater than or equal to 2")) :=
  ⟨⟨by decide, by decide, by decide, by decide⟩,
    closMaxDegree_requires_reset c6L2 c6R2 1 (by decide) (by decide) 2
      (by decide) 1 (by decide) false⟩

end SparseQubo
